import Mathlib

/-!
# Monkey: lexer, evaluator and builtin registry

A shallow embedding of `src/lexer/lexer.go`, `src/eval/eval.go`,
`src/eval/builtin.go`, `src/eval/object.go` and `src/object/builtin.go`,
followed by the theorems about them.

Conventions of the embedding:

* a Go `string` is the list of its bytes (`GoString`), a Go `byte` a natural
  number below 256;
* a Go `int64` is an `Int`, wrapped into the two's-complement range by `wrap64`
  wherever the arithmetic can leave it;
* a pointer receiver that is mutated (`*Lexer`, `*Array`) becomes explicit
  state passing;
* a host-level failure (a Go run-time panic) is the `Except.error` case of
  `Except HostFailure`.
-/

namespace Monkey

/-! ## Go strings and bytes -/

/-- A Go string: its sequence of bytes. -/
abbrev GoString := List Nat

/-- The bytes of an ASCII text (one byte per character). -/
def ascii (s : String) : GoString := s.toList.map Char.toNat

/-- Go conversion `string(ch)` of a byte: the UTF-8 encoding of the code point
whose number is `ch` (one byte below 0x80, two bytes from 0x80 to 0xFF). -/
def byteToString (ch : Nat) : GoString :=
  if ch < 128 then [ch] else [192 + ch / 64, 128 + ch % 64]

/-- Go slice expression `s[i:j]` for `i ≤ j ≤ len(s)`. -/
def slice (s : GoString) (i j : Nat) : GoString := (s.take j).drop i

/-! ## Tokens (package `token`, used by the lexer) -/

/-- The token kinds named in `lexer.go`, together with what the keyword table
`token.LookupIdent` can answer for a word (`IDENT` or a keyword kind). -/
inductive TokenType where
  | ILLEGAL | EOF | INT | STRING | ISTRING | BYTES
  | ASSIGN | EQ | NEQ | BANG | PLUS | MINUS | ASTERISK | SLASH | MOD
  | LT | GT | ARROW | DOT | COMMA | SEMICOLON | COLON
  | LPAREN | RPAREN | LBRACE | RBRACE | LBRACKET | RBRACKET
  | IDENT
  | KEYWORD (name : GoString)
  deriving DecidableEq, Repr

/-- A token: `token.Token{Type, Literal}`; the field `Type` is named `Kind`
here, `Type` being reserved. -/
structure Token where
  Kind : TokenType
  Literal : GoString
  deriving DecidableEq, Repr

/-! ## The lexer (`src/lexer/lexer.go`) -/

/-- The struct `Lexer`. -/
structure Lexer where
  input : GoString
  ch : Nat
  position : Nat
  readPosition : Nat
  interpolation : Bool
  paused : Bool
  deriving DecidableEq, Repr

namespace Lexer

/-- `flipInterpolation`. -/
def flipInterpolation (l : Lexer) : Lexer :=
  { l with interpolation := !l.interpolation }

/-- `pause`. -/
def pause (l : Lexer) : Lexer :=
  { l with interpolation := false, paused := true }

/-- `unPause`: the source sets `paused = true` here as well. -/
def unPause (l : Lexer) : Lexer :=
  { l with interpolation := true, paused := true }

/-- `readChar`: loads the byte at `readPosition` (0 past the end) and advances. -/
def readChar (l : Lexer) : Lexer :=
  { l with
    ch := if l.readPosition ≥ l.input.length then 0 else l.input.getD l.readPosition 0,
    position := l.readPosition,
    readPosition := l.readPosition + 1 }

/-- `peekChar`. -/
def peekChar (l : Lexer) : Nat :=
  if l.readPosition ≥ l.input.length then 0 else l.input.getD l.readPosition 0

end Lexer

/-- `New`. -/
def New (input : GoString) : Lexer :=
  Lexer.readChar
    { input := input, ch := 0, position := 0, readPosition := 0,
      interpolation := false, paused := false }

/-- `newToken`. -/
def newToken (tokenType : TokenType) (ch : Nat) : Token :=
  { Kind := tokenType, Literal := byteToString ch }

/-- `isLetter`. -/
def isLetter (ch : Nat) : Bool :=
  (97 ≤ ch && ch ≤ 122) || (65 ≤ ch && ch ≤ 90) || ch == 95

/-- `isDigit`. -/
def isDigit (ch : Nat) : Bool := 48 ≤ ch && ch ≤ 57

/-- `isQuote`. -/
def isQuote (ch : Nat) : Bool := ch == 34

/-- `isSingleQuote`. -/
def isSingleQuote (ch : Nat) : Bool := ch == 39

/-- The loop condition of `skipWhitespace`: space, tab, newline, carriage return. -/
def isWhitespace (ch : Nat) : Bool := ch == 32 || ch == 9 || ch == 10 || ch == 13

namespace Lexer

/-- The number of loop iterations after which a scanning loop that calls
`readChar` once per iteration has certainly met the end of input. -/
def loopBound (l : Lexer) : Nat := l.input.length - l.readPosition + 1

/-- The loop `for cond(l.ch) { l.readChar() }` of `skipWhitespace`,
`readIdentifier` and `readNumber`, bounded by a number of iterations. -/
def readWhile (cond : Nat → Bool) : Nat → Lexer → Lexer
  | 0, l => l
  | n + 1, l => if cond l.ch then readWhile cond n (readChar l) else l

/-- `skipWhitespace`. -/
def skipWhitespace (l : Lexer) : Lexer := readWhile isWhitespace l.loopBound l

/-- `readIdentifier`: the word read and the lexer after it. -/
def readIdentifier (l : Lexer) : GoString × Lexer :=
  let l1 := readWhile isLetter l.loopBound l
  (slice l.input l.position l1.position, l1)

/-- `readNumber`: the digits read and the lexer after them. -/
def readNumber (l : Lexer) : GoString × Lexer :=
  let l1 := readWhile isDigit l.loopBound l
  (slice l.input l.position l1.position, l1)

/-- The loop of `readString`: `true` with the lexer stepped over the closing
quote when one was found, `false` with the lexer at the byte 0 that was met
first (`err != nil`). -/
def readStringLoop : Nat → Lexer → Bool × Lexer
  | 0, l => (false, l)
  | n + 1, l =>
    let l1 := readChar l
    if isQuote l1.ch then (true, readChar l1)
    else if l1.ch = 0 then (false, l1)
    else readStringLoop n l1

/-- `readString`: `(some s, l1)` for `s, nil`; `(none, l1)` for `"", err`. -/
def readString (l : Lexer) : Option GoString × Lexer :=
  let start := l.position + 1
  match readStringLoop l.loopBound l with
  | (true, l1) => (some (slice l.input start (l1.position - 1)), l1)
  | (false, l1) => (none, l1)

/-- Lines 82 to 164 of `NextToken`: the tokenization outside interpolation,
from `skipWhitespace` on. `kw` is the keyword table `token.LookupIdent`. -/
def normalToken (kw : GoString → TokenType) (l0 : Lexer) : Token × Lexer :=
  let l := skipWhitespace l0
  match l.ch with
  | 61 =>  -- '='
    if peekChar l = 61 then
      (⟨TokenType.EQ, byteToString l.ch ++ byteToString l.ch⟩, readChar (readChar l))
    else (newToken TokenType.ASSIGN l.ch, readChar l)
  | 46 => (newToken TokenType.DOT l.ch, readChar l)
  | 59 => (newToken TokenType.SEMICOLON l.ch, readChar l)
  | 40 => (newToken TokenType.LPAREN l.ch, readChar l)
  | 41 => (newToken TokenType.RPAREN l.ch, readChar l)
  | 123 => (newToken TokenType.LBRACE l.ch, readChar l)
  | 125 => (newToken TokenType.RBRACE l.ch, readChar l)
  | 91 => (newToken TokenType.LBRACKET l.ch, readChar l)
  | 93 => (newToken TokenType.RBRACKET l.ch, readChar l)
  | 43 => (newToken TokenType.PLUS l.ch, readChar l)
  | 44 => (newToken TokenType.COMMA l.ch, readChar l)
  | 45 =>  -- '-'
    if peekChar l = 62 then
      (⟨TokenType.ARROW, byteToString l.ch ++ byteToString (peekChar l)⟩, readChar (readChar l))
    else (newToken TokenType.MINUS l.ch, readChar l)
  | 33 =>  -- '!'
    if peekChar l = 61 then
      (⟨TokenType.NEQ, byteToString l.ch ++ byteToString (peekChar l)⟩, readChar (readChar l))
    else (newToken TokenType.BANG l.ch, readChar l)
  | 42 => (newToken TokenType.ASTERISK l.ch, readChar l)
  | 47 => (newToken TokenType.SLASH l.ch, readChar l)
  | 60 => (newToken TokenType.LT l.ch, readChar l)
  | 62 => (newToken TokenType.GT l.ch, readChar l)
  | 58 => (newToken TokenType.COLON l.ch, readChar l)
  | 37 => (newToken TokenType.MOD l.ch, readChar l)
  | 0 => (⟨TokenType.EOF, []⟩, readChar l)
  | _ =>
    if isLetter l.ch then
      let r := readIdentifier l
      (⟨kw r.1, r.1⟩, r.2)
    else if isDigit l.ch then
      let r := readNumber l
      (⟨TokenType.INT, r.1⟩, r.2)
    else if isQuote l.ch then
      match readString l with
      | (some s, l1) => (⟨TokenType.STRING, s⟩, l1)
      | (none, l1) => (newToken TokenType.ILLEGAL l1.ch, readChar l1)
    else if isSingleQuote l.ch then
      (newToken TokenType.ISTRING l.ch, readChar (flipInterpolation l))
    else (newToken TokenType.ILLEGAL l.ch, readChar l)

/-- `NextToken` with its `if l.interpolation` block left out: lines 56 to 63
and 82 to 164. This is what the recursive call on line 74 runs, because
`pause` has just cleared `interpolation` (see `NextToken_of_not_interpolation`). -/
def nextTokenOutside (kw : GoString → TokenType) (l : Lexer) : Token × Lexer :=
  if l.paused && l.ch == 125 then
    if !isQuote (peekChar l) then (newToken TokenType.RBRACE l.ch, readChar (unPause l))
    else (newToken TokenType.RBRACE l.ch, l)
  else normalToken kw l

/-- `NextToken`: the token returned and the lexer after the call. -/
def NextToken (kw : GoString → TokenType) (l : Lexer) : Token × Lexer :=
  if l.paused && l.ch == 125 then
    if !isQuote (peekChar l) then (newToken TokenType.RBRACE l.ch, readChar (unPause l))
    else (newToken TokenType.RBRACE l.ch, l)
  else if l.interpolation then
    if isSingleQuote l.ch then
      (newToken TokenType.ISTRING l.ch, readChar (flipInterpolation l))
    else if l.ch == 123 && peekChar l != 125 then
      nextTokenOutside kw (readChar (pause l))
    else (newToken TokenType.BYTES l.ch, readChar l)
  else normalToken kw l

/-- The lexer after `n` calls of `NextToken`. -/
def after (kw : GoString → TokenType) : Nat → Lexer → Lexer
  | 0, l => l
  | n + 1, l => after kw n (NextToken kw l).2

/-- The tokens returned by the first `n` calls of `NextToken`. -/
def tokens (kw : GoString → TokenType) : Nat → Lexer → List Token
  | 0, _ => []
  | n + 1, l => (NextToken kw l).1 :: tokens kw n (NextToken kw l).2

/-- The token returned by call number `n` (counting from 0). -/
def nthToken (kw : GoString → TokenType) (n : Nat) (l : Lexer) : Token :=
  (NextToken kw (after kw n l)).1

end Lexer

/-! ## Host-level failures and machine integers -/

/-- The ways a Go function can fail at host level (a run-time panic). -/
inductive HostFailure where
  | divideByZero
  | indexOutOfRange
  | nilDereference
  | typeAssertion
  deriving DecidableEq, Repr

instance instDecidableEqExcept {ε α : Type} [DecidableEq ε] [DecidableEq α] :
    DecidableEq (Except ε α)
  | .ok a, .ok b =>
    if h : a = b then isTrue (congrArg Except.ok h)
    else isFalse (fun h1 => h (Except.ok.inj h1))
  | .error a, .error b =>
    if h : a = b then isTrue (congrArg Except.error h)
    else isFalse (fun h1 => h (Except.error.inj h1))
  | .ok _, .error _ => isFalse (fun h => Except.noConfusion h)
  | .error _, .ok _ => isFalse (fun h => Except.noConfusion h)

/-- Reduction of an integer to the two's-complement range of `int64`, which is
what Go arithmetic on `int64` does on overflow. -/
def wrap64 (x : Int) : Int := (x + 2 ^ 63) % 2 ^ 64 - 2 ^ 63

/-- The least `int64`. -/
def minInt64 : Int := -9223372036854775808

/-- The greatest `int64`. -/
def maxInt64 : Int := 9223372036854775807

/-- Membership in the range of `int64`. -/
def isInt64 (x : Int) : Prop := minInt64 ≤ x ∧ x ≤ maxInt64

instance (x : Int) : Decidable (isInt64 x) :=
  inferInstanceAs (Decidable (minInt64 ≤ x ∧ x ≤ maxInt64))

/-! ## Objects (`src/eval/object.go`, and the same variants of package `object`) -/

/-- `ObjectType`, a string type. -/
abbrev ObjectType := GoString

def INTEGER_OBJ : ObjectType := ascii "INTEGER"
def BOOLEAN_OBJ : ObjectType := ascii "BOOLEAN"
def NULL_OBJ : ObjectType := ascii "NULL"
def RETURN_VALUE_OBJ : ObjectType := ascii "RETURN_VALUE"
def BREAK_OBJ : ObjectType := ascii "BREAK"
def ERROR_OBJ : ObjectType := ascii "ERROR"
def FUNCTION_OBJ : ObjectType := ascii "FUNCTION"
def STRING_OBJ : ObjectType := ascii "STRING"
def BUILTIN_OBJ : ObjectType := ascii "BUILTIN"
def ARRAY_OBJ : ObjectType := ascii "ARRAY"
def HASH_OBJ : ObjectType := ascii "HASH"
def INCLUDED_OBJ : ObjectType := ascii "INCLUDE"
def STRUCT_OBJ : ObjectType := ascii "STRUCT"
def FILE_OBJ : ObjectType := ascii "FILE"

/-- The error kinds passed to `newError` in `src/eval`. -/
inductive ErrorKind where
  | ARGUMENTERROR
  | INPUTERROR
  | NOMETHODERROR
  deriving DecidableEq, Repr

/-- One of the variadic arguments of `newError`: a string (an `ObjectType` is
one) or an integer. -/
inductive ErrArg where
  | str (s : GoString)
  | int (n : Int)
  deriving DecidableEq, Repr

/-- The object variants. `String`, `Array` and the two shapes of error are used
by the sources but declared outside `src/`; their fields are the ones the
sources read (`Value`, `Members`, `Message`).

Pointers: an `Array` is the address of its `Members` in the `World`, because
`push` and `pop` mutate it in place; `Function.Literal`, the scopes and
`Builtin.Fn` are addresses of values the sources under `src/` never look into.
`Boolean` and `Null` objects exist only as the package-level `TRUE`, `FALSE` and
`NULL`, so comparing them by value is comparing them by pointer. -/
inductive Object where
  | Integer (Value : Int)
  | Boolean (Value : Bool)
  | Null
  | Break
  | ReturnValue (Value : Object)
  | Function (Literal : Nat) (Scope : Nat)
  | Builtin (Fn : Nat)
  | IncludedObject (Name : GoString) (Scope : Nat)
  | Struct (Scope : Nat) (methods : List (GoString × Nat × Nat))
  | String (Value : GoString)
  | Array (Members : Nat)
  | Error (kind : ErrorKind) (args : List ErrArg)
  | ErrorMessage (Message : GoString)
  deriving DecidableEq, Repr

/-- `TRUE`. -/
def TRUE : Object := Object.Boolean true

/-- `FALSE`. -/
def FALSE : Object := Object.Boolean false

/-- `NULL`. -/
def NULL : Object := Object.Null

/-- Modelled from the spec: `newError` is called by `src/eval` and defined
outside `src/`. The spec has an `Error` carry its kind and what it was built
from (expected and actual counts, the offending type tag and the operation, the
method name and the receiver type tag); the formatted message is left out. -/
def newError (kind : ErrorKind) (args : List ErrArg) : Object := Object.Error kind args

/-- The method `Type()`, named `Kind` here. For `String`, `Array` and the
errors, whose methods are outside `src/`, the tag is the constant of
`object.go` of that name. -/
def Object.Kind : Object → ObjectType
  | .Integer _ => INTEGER_OBJ
  | .Boolean _ => BOOLEAN_OBJ
  | .Null => NULL_OBJ
  | .Break => BREAK_OBJ
  | .ReturnValue _ => RETURN_VALUE_OBJ
  | .Function _ _ => FUNCTION_OBJ
  | .Builtin _ => BUILTIN_OBJ
  | .IncludedObject _ _ => INCLUDED_OBJ
  | .Struct _ _ => STRUCT_OBJ
  | .String _ => STRING_OBJ
  | .Array _ => ARRAY_OBJ
  | .Error _ _ => ERROR_OBJ
  | .ErrorMessage _ => ERROR_OBJ

/-- What the sources use and neither define nor import from the standard
library: the rendering of the variants whose `Inspect` is outside `src/`
(`String`, `Array`, errors, `Function`, `Struct`), the exported method names
that `reflect` reports for an object, and the `%T` name of its Go type. -/
structure Host where
  inspect : Object → GoString
  methodNames : Object → List GoString
  goTypeName : Object → GoString

/-- The digits of `fmt.Sprintf("%d", u)` for `u ≥ 0`, most significant first;
the first argument bounds the number of digits. -/
def formatUintLoop : Nat → Nat → GoString
  | 0, _ => []
  | n + 1, u => if u ≥ 10 then formatUintLoop n (u / 10) ++ [48 + u % 10] else [48 + u]

/-- `fmt.Sprintf("%d", v)`: decimal digits, with a leading `-` below zero. -/
def formatInt (v : Int) : GoString :=
  if v < 0 then 45 :: formatUintLoop (v.natAbs + 1) v.natAbs
  else formatUintLoop (v.natAbs + 1) v.natAbs

/-- The digit loop of `strconv.Atoi`: `none` at a byte that is no digit. -/
def parseUint : Nat → GoString → Option Nat
  | acc, [] => some acc
  | acc, d :: ds => if isDigit d then parseUint (acc * 10 + (d - 48)) ds else none

/-- `strconv.Atoi` where `int` has 64 bits: an optional sign, then one or more
decimal digits, the value within the range of `int64`; `none` is `err != nil`. -/
def Atoi (s : GoString) : Option Int :=
  let neg := s.head? = some 45
  let ds := if s.head? = some 43 ∨ s.head? = some 45 then s.tail else s
  if ds = [] then none
  else
    match parseUint 0 ds with
    | none => none
    | some un =>
      if neg then (if un > 2 ^ 63 then none else some (-(un : Int)))
      else (if un ≥ 2 ^ 63 then none else some (un : Int))

/-- The method `Inspect()`. -/
def Object.Inspect (host : Host) : Object → GoString
  | .Integer v => formatInt v
  | .Boolean b => if b then ascii "true" else ascii "false"
  | .Null => ascii "null"
  | .Break => ascii "break"
  | .ReturnValue v => Object.Inspect host v
  | .Builtin _ => ascii "builtin function"
  | .IncludedObject name _ => ascii "included object: " ++ name
  | x => host.inspect x

/-! ## The syntax tree (package `ast`, as `eval.go` reads it) -/

mutual
/-- The expression nodes `Eval` has a case for, and `other` for the rest. -/
inductive Expression where
  | InfixExpression (Left : Expression) (Operator : GoString) (Right : Expression)
  | PrefixExpression (Operator : GoString) (Right : Expression)
  | IfExpression (Condition : Expression) (Consequence : List Statement)
      (Alternative : Option (List Statement))
  | IntegerLiteral (Value : Int)
  | Boolean (Value : Bool)
  | other
/-- The statement node `Eval` has a case for, and `other` for the rest. -/
inductive Statement where
  | ExpressionStatement (Expression : Expression)
  | other
end

/-- A node handed to `Eval`: the program, a statement or an expression. -/
inductive Node where
  | Program (Statements : List Statement)
  | statement (s : Statement)
  | expression (e : Expression)

/-! ## The evaluator (`src/eval/eval.go`)

A value of interface type `object.Object` is an `Option Object`, `none` being
the nil interface. -/

/-- `nativeBoolToBooleanObject`. -/
def nativeBoolToBooleanObject (input : Bool) : Object :=
  if input then TRUE else FALSE

/-- `isTrue`. -/
def isTrue (obj : Option Object) : Bool :=
  if obj = some TRUE then true
  else if obj = some FALSE then false
  else if obj = some NULL then false
  else true

/-- `evalBangOperatorExpression`. -/
def evalBangOperatorExpression (right : Option Object) : Object :=
  if right = some TRUE then FALSE
  else if right = some FALSE then TRUE
  else if right = some NULL then TRUE
  else FALSE

/-- `evalPrefixExpression`; the negated `Integer` is the operand itself,
changed in place. -/
def evalPrefixExpression (operator : GoString) (right : Option Object) : Object :=
  if operator = ascii "!" then evalBangOperatorExpression right
  else if operator = ascii "-" then
    match right with
    | some (Object.Integer v) => Object.Integer (wrap64 (-v))
    | _ => NULL
  else NULL

/-- `evalIntInfixExpression`. -/
def evalIntInfixExpression (operator : GoString) (left right : Object) :
    Except HostFailure Object :=
  match left, right with
  | Object.Integer l, Object.Integer r =>
    if operator = ascii "+" then pure (Object.Integer (wrap64 (l + r)))
    else if operator = ascii "-" then pure (Object.Integer (wrap64 (l - r)))
    else if operator = ascii "*" then pure (Object.Integer (wrap64 (l * r)))
    else if operator = ascii "/" then
      if r = 0 then throw HostFailure.divideByZero
      else pure (Object.Integer (wrap64 (Int.tdiv l r)))
    else if operator = ascii ">" then pure (nativeBoolToBooleanObject (decide (l > r)))
    else if operator = ascii "<" then pure (nativeBoolToBooleanObject (decide (l < r)))
    else if operator = ascii "==" then pure (nativeBoolToBooleanObject (decide (l = r)))
    else if operator = ascii "!=" then pure (nativeBoolToBooleanObject (decide (l ≠ r)))
    else pure NULL
  | _, _ => pure NULL

/-- `evalInfixExpression`. Calling `Type()` on a nil interface is a nil
dereference. The comparisons `left == right` of the last two cases compare
pointers; they are reached with an operand that is no `Integer`, and on what
`Eval` produces (nil, an `Integer`, `TRUE`, `FALSE`, `NULL`) two such operands
are the same pointer exactly when they are the same value. -/
def evalInfixExpression (operator : GoString) (left right : Option Object) :
    Except HostFailure Object :=
  match left with
  | none => throw HostFailure.nilDereference
  | some lo =>
    let fallback : Except HostFailure Object :=
      if operator = ascii "==" then pure (nativeBoolToBooleanObject (decide (left = right)))
      else if operator = ascii "!=" then pure (nativeBoolToBooleanObject (decide (left ≠ right)))
      else pure NULL
    if lo.Kind = INTEGER_OBJ then
      match right with
      | none => throw HostFailure.nilDereference
      | some ro =>
        if ro.Kind = INTEGER_OBJ then evalIntInfixExpression operator lo ro
        else fallback
    else fallback

mutual
/-- `Eval` on an expression node. -/
def evalExpression : Expression → Except HostFailure (Option Object)
  | .InfixExpression l op r => do
    let left ← evalExpression l
    let right ← evalExpression r
    let v ← evalInfixExpression op left right
    pure (some v)
  | .PrefixExpression op r => do
    let right ← evalExpression r
    pure (some (evalPrefixExpression op right))
  | .IfExpression c cons alt => do
    let condition ← evalExpression c
    if isTrue condition then evalStatementsFrom none cons
    else
      match alt with
      | some a => evalStatementsFrom none a
      | none => pure (some NULL)
  | .IntegerLiteral v => pure (some (Object.Integer v))
  | .Boolean b => pure (some (nativeBoolToBooleanObject b))
  | .other => pure none
/-- `Eval` on a statement node. -/
def evalStatement : Statement → Except HostFailure (Option Object)
  | .ExpressionStatement e => evalExpression e
  | .other => pure none
/-- The loop of `evalStatements`, entered with the current value of `results`. -/
def evalStatementsFrom : Option Object → List Statement → Except HostFailure (Option Object)
  | results, [] => pure results
  | _, statement :: rest => do
    let results ← evalStatement statement
    evalStatementsFrom results rest
end

/-- `evalStatements`: `results` starts as the nil interface. -/
def evalStatements (stmts : List Statement) : Except HostFailure (Option Object) :=
  evalStatementsFrom none stmts

/-- `Eval`. -/
def Eval : Node → Except HostFailure (Option Object)
  | .Program stmts => evalStatements stmts
  | .statement s => evalStatement s
  | .expression e => evalExpression e

/-! ## The builtin registries (`src/eval/builtin.go`, `src/object/builtin.go`) -/

/-- What a builtin can read and change besides its arguments: the members of
every array, the next free array address, and the bytes written to the
standard output. -/
structure World where
  members : Nat → List Object
  next : Nat
  stdout : GoString

/-- `World` with the members of the array at `addr` replaced. -/
def World.setMembers (w : World) (addr : Nat) (ms : List Object) : World :=
  { w with members := Function.update w.members addr ms }

/-- `BuiltinFunc`: the arguments are the variadic `args`. -/
abbrev BuiltinFunc := World → List Object → Except HostFailure (Object × World)

/-- Go index expression `args[i]`: a run-time panic out of range. -/
def index (args : List Object) (i : Nat) : Except HostFailure Object :=
  match args[i]? with
  | some x => pure x
  | none => throw HostFailure.indexOutOfRange

/-- `strings.ToLower` on ASCII text. -/
def toLower (s : GoString) : GoString :=
  s.map (fun b => if 65 ≤ b ∧ b ≤ 90 then b + 32 else b)

/-- The entry `"int"` of `builtins`. -/
def builtinInt : BuiltinFunc := fun w args =>
  if args.length ≠ 1 then
    pure (newError ErrorKind.ARGUMENTERROR [ErrArg.str (ascii "1"), ErrArg.int args.length], w)
  else do
    let input ← index args 0
    match input with
    | Object.Integer _ => pure (input, w)
    | Object.String v =>
      match Atoi v with
      | none =>
        pure (newError ErrorKind.INPUTERROR
          [ErrArg.str (ascii "STRING: " ++ v), ErrArg.str (ascii "int")], w)
      | some n => pure (Object.Integer n, w)
    | _ =>
      pure (newError ErrorKind.INPUTERROR [ErrArg.str input.Kind, ErrArg.str (ascii "int")], w)

/-- The entry `"str"` of `builtins`. -/
def builtinStr (host : Host) : BuiltinFunc := fun w args =>
  if args.length ≠ 1 then
    pure (newError ErrorKind.ARGUMENTERROR [ErrArg.str (ascii "1"), ErrArg.int args.length], w)
  else do
    let input ← index args 0
    match input with
    | Object.String _ => pure (input, w)
    | _ => pure (Object.String (input.Inspect host), w)

/-- The entry `"len"` of `builtins`; `len` of a Go string is its number of
bytes. -/
def builtinLen : BuiltinFunc := fun w args =>
  if args.length ≠ 1 then
    pure (newError ErrorKind.ARGUMENTERROR [ErrArg.str (ascii "1"), ErrArg.int args.length], w)
  else do
    let arg ← index args 0
    match arg with
    | Object.String v => pure (Object.Integer v.length, w)
    | Object.Array a => pure (Object.Integer (w.members a).length, w)
    | _ =>
      pure (newError ErrorKind.NOMETHODERROR [ErrArg.str (ascii "len"), ErrArg.str arg.Kind], w)

/-- The entry `"methods"` of `builtins`: a new array of the lower-cased method
names other than the four protocol methods. -/
def builtinMethods (host : Host) : BuiltinFunc := fun w args =>
  if args.length ≠ 1 then
    pure (newError ErrorKind.ARGUMENTERROR [ErrArg.str (ascii "1"), ErrArg.int args.length], w)
  else do
    let x ← index args 0
    let kept := (host.methodNames x).filter (fun m =>
      !(m = ascii "Type" || m = ascii "CallMethod" || m = ascii "HashKey" || m = ascii "Inspect"))
    let w1 : World := { w with next := w.next + 1 }
    pure (Object.Array w.next,
      w1.setMembers w.next (kept.map (fun m => Object.String (toLower m))))

/-- The entry `"puts"` of `builtins`: there is no check of `len(args)` before
`args[0]`. -/
def builtinPuts (host : Host) : BuiltinFunc := fun w args => do
  let x ← index args 0
  pure (NULL, { w with stdout := w.stdout ++ x.Inspect host ++ [10] })

/-- The entry `"type"` of `builtins`. -/
def builtinType : BuiltinFunc := fun w args =>
  if args.length ≠ 1 then
    pure (newError ErrorKind.ARGUMENTERROR [ErrArg.str (ascii "1"), ErrArg.int args.length], w)
  else do
    let x ← index args 0
    pure (Object.String x.Kind, w)

/-- The table `builtins` of `src/eval/builtin.go`. -/
def builtins (host : Host) (name : GoString) : Option BuiltinFunc :=
  if name = ascii "int" then some builtinInt
  else if name = ascii "str" then some (builtinStr host)
  else if name = ascii "len" then some builtinLen
  else if name = ascii "methods" then some (builtinMethods host)
  else if name = ascii "puts" then some (builtinPuts host)
  else if name = ascii "type" then some builtinType
  else none

/-- The entry `"len"` of `Builtins`. -/
def objectLen (host : Host) : BuiltinFunc := fun w args =>
  if args.length ≠ 1 then
    pure (Object.ErrorMessage
      (ascii "too many arguments. expected=1 got=" ++ formatInt args.length), w)
  else do
    let arg ← index args 0
    match arg with
    | Object.String v => pure (Object.Integer v.length, w)
    | Object.Array a => pure (Object.Integer (w.members a).length, w)
    | _ => pure (Object.ErrorMessage (ascii "unsupported type: " ++ host.goTypeName arg), w)

/-- The entry `"pop"` of `Builtins`. The index expressions `Members[0]` and
`Members[idx]` panic out of range, and `args[0].(*Integer)` panics on another
variant. -/
def objectPop (host : Host) : BuiltinFunc := fun w args =>
  let l := args.length
  if ¬ (l = 1 ∨ l = 2) then
    pure (Object.ErrorMessage
      (ascii "too many arguments. expected=1 or 2. got=" ++ formatInt args.length), w)
  else do
    let obj ← index args (l - 1)
    match obj with
    | Object.Array a =>
      let ms := w.members a
      if l = 1 then
        match ms with
        | [] => throw HostFailure.indexOutOfRange
        | popped :: shifted => pure (popped, w.setMembers a shifted)
      else do
        let first ← index args 0
        match first with
        | Object.Integer idx =>
          if idx < 0 ∨ idx ≥ ms.length then throw HostFailure.indexOutOfRange
          else
            match ms[idx.toNat]? with
            | none => throw HostFailure.indexOutOfRange
            | some popped =>
              pure (popped, w.setMembers a (ms.take idx.toNat ++ ms.drop (idx.toNat + 1)))
        | _ => throw HostFailure.typeAssertion
    | _ => do
      let first ← index args 0
      pure (Object.ErrorMessage (ascii "unsupportedtype " ++ host.goTypeName first), w)

/-- The entry `"push"` of `Builtins`. -/
def objectPush (host : Host) : BuiltinFunc := fun w args =>
  let l := args.length
  if l ≠ 2 then
    pure (Object.ErrorMessage
      (ascii "too many arguments. expected=1. got=" ++ formatInt args.length), w)
  else do
    let obj ← index args (l - 1)
    let item ← index args 0
    match obj with
    | Object.Array a => pure (obj, w.setMembers a (w.members a ++ [item]))
    | _ => pure (Object.ErrorMessage (ascii "unsupportedtype " ++ host.goTypeName item), w)

/-- The table `Builtins` of `src/object/builtin.go`. -/
def Builtins (host : Host) (name : GoString) : Option BuiltinFunc :=
  if name = ascii "len" then some (objectLen host)
  else if name = ascii "pop" then some (objectPop host)
  else if name = ascii "push" then some (objectPush host)
  else none

/-! ## Inputs and expected values named in the statements -/

/-- The source text of the interpolation example, its single quotes included. -/
def hiBye : GoString := ascii "\x27hi \x7b1+2\x7d bye\x27"

/-- A keyword table without keywords: every word is an identifier. -/
def identOnly : GoString → TokenType := fun _ => TokenType.IDENT

/-- The token sequence the specification lists for `hiBye`, with a brace-open
token where the pause begins. -/
def hiByeListed : List Token :=
  [⟨.ISTRING, ascii "\x27"⟩, ⟨.BYTES, ascii "h"⟩, ⟨.BYTES, ascii "i"⟩, ⟨.BYTES, ascii " "⟩,
   ⟨.LBRACE, ascii "\x7b"⟩, ⟨.INT, ascii "1"⟩, ⟨.PLUS, ascii "+"⟩, ⟨.INT, ascii "2"⟩,
   ⟨.RBRACE, ascii "\x7d"⟩, ⟨.BYTES, ascii " "⟩, ⟨.BYTES, ascii "b"⟩, ⟨.BYTES, ascii "y"⟩,
   ⟨.BYTES, ascii "e"⟩, ⟨.ISTRING, ascii "\x27"⟩]

/-- The lexer over `hiBye` with `ch` the byte at `position`. -/
def hiByeAt (ch position : Nat) (interpolation paused : Bool) : Lexer :=
  ⟨hiBye, ch, position, position + 1, interpolation, paused⟩

/-- A source text that opens an interpolated string and never closes it: one
single quote. -/
def openQuote : GoString := ascii "\x27"

/-- The syntax tree of `a op b` over two integer literals. -/
def infixOfLiterals (a : Int) (op : GoString) (b : Int) : Node :=
  Node.expression
    (Expression.InfixExpression (Expression.IntegerLiteral a) op (Expression.IntegerLiteral b))

/-- A call of the builtin registered under `name` in a table; `none` when the
table has no such entry. -/
def callBuiltin (table : GoString → Option BuiltinFunc) (name : GoString) (w : World)
    (args : List Object) : Option (Except HostFailure (Object × World)) :=
  (table name).map (fun f => f w args)

/-- The object a call returned, without the world. -/
def returned (r : Except HostFailure (Object × World)) : Except HostFailure Object :=
  r.map Prod.fst

/-- The number of characters (code points) of a UTF-8 text: each character has
exactly one byte that is not a continuation byte `10xxxxxx`. -/
def charCount (s : GoString) : Nat := (s.filter (fun b => b / 64 != 2)).length

/-- The UTF-8 bytes of the one-character string `é`. -/
def eAcute : GoString := [195, 169]

/-- A host that renders and reports nothing. -/
def silentHost : Host := ⟨fun _ => [], fun _ => [], fun _ => []⟩

/-- A world whose only array, at address 0, has the members 1, 2, 3. -/
def world123 : World :=
  ⟨fun a => if a = 0 then [Object.Integer 1, Object.Integer 2, Object.Integer 3] else [], 1, []⟩

/-! ## Method dispatch (`CallMethod` in `src/eval/object.go`) -/

/-- What `CallMethod` needs from outside `src/`: `invoke` is the rest of
`Struct.CallMethod` once the method is found (lines 60 to 69: a new scope with
`self` and the parameters, then `Eval` of the body in that scope; neither
`Scope` nor an `Eval` taking a scope is among the sources), and `undeclared` is
`CallMethod` of the variants declared outside `src/` (`String`, `Array`, the
errors). -/
structure Dispatch where
  invoke : Object → Nat × Nat → List Object → Except HostFailure Object
  undeclared : Object → GoString → List Object → Except HostFailure Object

/-- The method `CallMethod`. A Go map lookup `s.methods[method]` is the lookup
in the association list `methods`. -/
def Object.CallMethod (d : Dispatch) (o : Object) (method : GoString) (args : List Object) :
    Except HostFailure Object :=
  match o with
  | .Struct _ methods =>
    match methods.lookup method with
    | none => pure (newError ErrorKind.NOMETHODERROR [ErrArg.str method, ErrArg.str o.Kind])
    | some fn => d.invoke o fn args
  | .Builtin _ | .IncludedObject _ _ | .Function _ _ | .ReturnValue _ | .Integer _
  | .Boolean _ | .Null | .Break =>
    pure (newError ErrorKind.NOMETHODERROR [ErrArg.str method, ErrArg.str o.Kind])
  | .String _ | .Array _ | .Error _ _ | .ErrorMessage _ => d.undeclared o method args

/-- A dispatch whose two parts fail: a result that does not depend on them is
computed without them. -/
def failingDispatch : Dispatch :=
  ⟨fun _ _ _ => Except.error HostFailure.nilDereference,
   fun _ _ _ => Except.error HostFailure.nilDereference⟩

/-- The lexer `l` with the byte at position `p` as its current one (0 past the
end): the state every `readChar` at `readPosition = p` leaves. -/
def Lexer.seek (l : Lexer) (p : Nat) : Lexer :=
  ⟨l.input, l.input.getD p 0, p, p + 1, l.interpolation, l.paused⟩

/-- The source text `"ab" x`. -/
def quotedAb : GoString := ascii "\x22ab\x22 x"

/-- The source text of a double-quoted string with the byte 0 between `a` and
`b`. -/
def quotedNul : GoString := [34, 97, 0, 98, 34]

/-- The source text `"abc`, a string that is never closed. -/
def unterminatedAbc : GoString := ascii "\x22abc"

/-- The source text `'{1}}'`: an interpolated string with one segment and then
a closing brace as text. -/
def segmentThenBrace : GoString := ascii "\x27\x7b1\x7d\x7d\x27"

/-- The source text `'é'`, whose character is the two bytes C3 A9. -/
def quotedEAcute : GoString := [39, 195, 169, 39]

/-- The source text `"é"`: the same character between double quotes. -/
def doubleQuotedEAcute : GoString := [34, 195, 169, 34]

/-- The source text `-> == !=`. -/
def twoByteOperators : GoString := ascii "-> == !="

/-! ## Trees named in the statements about `Eval` -/

mutual
/-- Whether an expression is built from the nodes `Eval` has a case for and
uses no `/` operator; with `emptyOk = false`, also whether every block in it
holds at least one statement. -/
def Expression.listed (emptyOk : Bool) : Expression → Bool
  | .InfixExpression l op r =>
    Expression.listed emptyOk l && (op != ascii "/") && Expression.listed emptyOk r
  | .PrefixExpression _ r => Expression.listed emptyOk r
  | .IfExpression c cons none =>
    Expression.listed emptyOk c && (emptyOk || !cons.isEmpty) && listedAll emptyOk cons
  | .IfExpression c cons (some alt) =>
    Expression.listed emptyOk c && (emptyOk || !cons.isEmpty) && listedAll emptyOk cons &&
      (emptyOk || !alt.isEmpty) && listedAll emptyOk alt
  | .IntegerLiteral _ => true
  | .Boolean _ => true
  | .other => false
/-- The same for a statement. -/
def Statement.listed (emptyOk : Bool) : Statement → Bool
  | .ExpressionStatement e => Expression.listed emptyOk e
  | .other => false
/-- The same for every statement of a list. -/
def listedAll (emptyOk : Bool) : List Statement → Bool
  | [] => true
  | s :: rest => Statement.listed emptyOk s && listedAll emptyOk rest
end

/-- Whether a tree is built from Program, ExpressionStatement, InfixExpression,
PrefixExpression, IfExpression, IntegerLiteral and Boolean nodes and uses no
`/` operator; with `emptyOk = false`, also whether the program and every block
hold at least one statement. -/
def Node.listed (emptyOk : Bool) : Node → Bool
  | .Program stmts => (emptyOk || !stmts.isEmpty) && listedAll emptyOk stmts
  | .statement s => Statement.listed emptyOk s
  | .expression e => Expression.listed emptyOk e

/-- The tree of `if (0) { 1 } else { 2 }`. -/
def ifZero : Expression :=
  Expression.IfExpression (Expression.IntegerLiteral 0)
    [Statement.ExpressionStatement (Expression.IntegerLiteral 1)]
    (some [Statement.ExpressionStatement (Expression.IntegerLiteral 2)])

/-- The tree of the empty program. -/
def emptyProgram : Node := Node.Program []

/-- The tree of `(if (true) { }) + 1`. -/
def emptyBlockPlusOne : Node :=
  Node.expression
    (Expression.InfixExpression (Expression.IfExpression (Expression.Boolean true) [] none)
      (ascii "+") (Expression.IntegerLiteral 1))

/-- The tree of the program `!(1 < 2)`. -/
def notLess : Node :=
  Node.Program [Statement.ExpressionStatement
    (Expression.PrefixExpression (ascii "!")
      (Expression.InfixExpression (Expression.IntegerLiteral 1) (ascii "<")
        (Expression.IntegerLiteral 2)))]

/-! ## Base-10 integers, in the words of the specification -/

/-- The number a sequence of decimal digits denotes: each digit weighs ten times
the digit to its right. -/
def decimalValue : GoString → Nat
  | [] => 0
  | d :: ds => (d - 48) * 10 ^ ds.length + decimalValue ds

/-- The text `s` is a valid base-10 integer denoting `n`: an optional sign `+`
or `-`, then one or more decimal digits, the value within the 64-bit signed
range. -/
def denotesInt (s : GoString) (n : Int) : Prop :=
  ∃ sign digits : GoString, s = sign ++ digits ∧ (sign = [] ∨ sign = [43] ∨ sign = [45]) ∧
    digits ≠ [] ∧ (∀ d ∈ digits, 48 ≤ d ∧ d ≤ 57) ∧
    n = (if sign = [45] then -(decimalValue digits : Int) else (decimalValue digits : Int)) ∧
    isInt64 n

/-! ## Lexer states named in the statements about the end of input -/

/-- The current byte is the one at `position` (0 past the end) and
`readPosition` is the next position: what holds after every `readChar`. -/
def Lexer.synced (l : Lexer) : Prop :=
  l.ch = l.input.getD l.position 0 ∧ l.readPosition = l.position + 1

/-- The lexer is in Normal mode with the whole input read: the current byte is
0 and `readPosition` is past the last byte. -/
def Lexer.atEnd (l : Lexer) : Prop :=
  l.interpolation = false ∧ l.ch = 0 ∧ l.input.length ≤ l.readPosition

/-- The source text `'{1}'}x`: an interpolated string with one segment, then
`}x`. -/
def segmentThenRest : GoString := ascii "\x27\x7b1\x7d\x27\x7dx"

/-- The source text `}x`, what follows the interpolated string in
`segmentThenRest`. -/
def braceX : GoString := ascii "\x7dx"

/-- The source text of a byte 0 followed by `a`. -/
def nulThenA : GoString := [0, 97]

/-- The source text `x`. -/
def justX : GoString := ascii "x"

/-! # Theorems -/

/-! ## The lexer -/

namespace Lexer

/-- `readChar` past the end of input loads the byte 0. -/
theorem readChar_ch_of_le (l : Lexer) (h : l.input.length ≤ l.readPosition) :
    (readChar l).ch = 0 := by
  simp [readChar, h]

theorem readWhile_of_not (cond : Nat → Bool) (n : Nat) (l : Lexer) (h : cond l.ch = false) :
    readWhile cond n l = l := by
  cases n with
  | zero => rfl
  | succ n => simp [readWhile, h]

/-- The bound of `loopBound` is enough: a scanning loop whose condition fails on
the byte 0 leaves through its condition, not through the bound. -/
theorem readWhile_exit (cond : Nat → Bool) (h0 : cond 0 = false) (n : Nat) (l : Lexer)
    (hn : l.loopBound ≤ n) : cond (readWhile cond n l).ch = false := by
  induction n generalizing l with
  | zero => simp [loopBound] at hn
  | succ n ih =>
    simp only [readWhile]
    by_cases hc : cond l.ch = true
    · simp only [hc, if_true]
      by_cases hr : l.input.length ≤ l.readPosition
      · have hz : (readChar l).ch = 0 := readChar_ch_of_le l hr
        rw [readWhile_of_not cond n _ (by rw [hz]; exact h0), hz]
        exact h0
      · apply ih
        simp only [loopBound, readChar] at hn ⊢
        omega
    · simp [hc]

/-- `skipWhitespace` stops at a byte that is no whitespace. -/
theorem skipWhitespace_ch (l : Lexer) : isWhitespace (skipWhitespace l).ch = false :=
  readWhile_exit isWhitespace (by decide) _ l (Nat.le_refl _)

/-- `readIdentifier` stops at a byte that is no letter. -/
theorem readIdentifier_ch (l : Lexer) : isLetter (readIdentifier l).2.ch = false :=
  readWhile_exit isLetter (by decide) _ l (Nat.le_refl _)

/-- `readNumber` stops at a byte that is no digit. -/
theorem readNumber_ch (l : Lexer) : isDigit (readNumber l).2.ch = false :=
  readWhile_exit isDigit (by decide) _ l (Nat.le_refl _)

/-- The bound of `loopBound` is enough for `readString`: the loop reports an
error only at the byte 0, never for want of iterations. -/
theorem readStringLoop_exit (n : Nat) (l : Lexer) (hn : l.loopBound ≤ n)
    (hf : (readStringLoop n l).1 = false) : (readStringLoop n l).2.ch = 0 := by
  induction n generalizing l with
  | zero => simp [loopBound] at hn
  | succ n ih =>
    simp only [readStringLoop] at hf ⊢
    by_cases hq : isQuote (readChar l).ch = true
    · simp [hq] at hf
    · by_cases hz : (readChar l).ch = 0
      · simp only [hq, if_false, Bool.false_eq_true]
        simp [hz]
      · simp only [hq, hz, if_false, Bool.false_eq_true] at hf ⊢
        apply ih _ _ hf
        have hr : ¬ l.input.length ≤ l.readPosition := fun h => hz (readChar_ch_of_le l h)
        simp only [loopBound, readChar] at hn ⊢
        omega

theorem tokens_zero (kw : GoString → TokenType) (l : Lexer) : tokens kw 0 l = [] := rfl

theorem tokens_step (kw : GoString → TokenType) {l : Lexer} {t : Token} {ts : List Token}
    {n : Nat} (l1 : Lexer) (h : NextToken kw l = (t, l1)) (hrest : tokens kw n l1 = ts) :
    tokens kw (n + 1) l = t :: ts := by
  simp only [tokens, h, hrest]

theorem after_succ (kw : GoString → TokenType) (n : Nat) (l : Lexer) :
    after kw (n + 1) l = (NextToken kw (after kw n l)).2 := by
  induction n generalizing l with
  | zero => rfl
  | succ n ih =>
    show after kw (n + 1) (NextToken kw l).2 = _
    rw [ih]
    rfl

/-- The call on line 74 is a call of `NextToken` itself: outside interpolation
`NextToken` is `nextTokenOutside`. -/
theorem NextToken_of_not_interpolation (kw : GoString → TokenType) (l : Lexer)
    (h : l.interpolation = false) : NextToken kw l = nextTokenOutside kw l := by
  simp [NextToken, nextTokenOutside, h]

/-- The recursion of `NextToken` as the source writes it. -/
theorem NextToken_pause (kw : GoString → TokenType) (l : Lexer)
    (h1 : (l.paused && l.ch == 125) = false) (h2 : l.interpolation = true)
    (h3 : isSingleQuote l.ch = false) (h4 : (l.ch == 123 && peekChar l != 125) = true) :
    NextToken kw l = NextToken kw (readChar (pause l)) := by
  rw [NextToken_of_not_interpolation kw (readChar (pause l)) rfl]
  simp only [NextToken, h1, h2, h3, h4, if_true, Bool.false_eq_true, if_false]

end Lexer

open Lexer

/-- C1 (as amended): tokenizing `'hi {1+2} bye'` yields interpolation-start,
bytes h, i and space, then INT 1, PLUS, INT 2 (the opening brace is consumed
without a token of its own), RBRACE, bytes space, b, y, e, interpolation-end,
and then the end of input. -/
theorem hiBye_tokens (kw : GoString → TokenType) :
    tokens kw 14 (New hiBye) =
      [⟨.ISTRING, ascii "\x27"⟩, ⟨.BYTES, ascii "h"⟩, ⟨.BYTES, ascii "i"⟩, ⟨.BYTES, ascii " "⟩,
       ⟨.INT, ascii "1"⟩, ⟨.PLUS, ascii "+"⟩, ⟨.INT, ascii "2"⟩,
       ⟨.RBRACE, ascii "\x7d"⟩, ⟨.BYTES, ascii " "⟩, ⟨.BYTES, ascii "b"⟩, ⟨.BYTES, ascii "y"⟩,
       ⟨.BYTES, ascii "e"⟩, ⟨.ISTRING, ascii "\x27"⟩, ⟨.EOF, []⟩] :=
  tokens_step kw (hiByeAt 104 1 true false) rfl <|
  tokens_step kw (hiByeAt 105 2 true false) rfl <|
  tokens_step kw (hiByeAt 32 3 true false) rfl <|
  tokens_step kw (hiByeAt 123 4 true false) rfl <|
  tokens_step kw (hiByeAt 43 6 false true) rfl <|
  tokens_step kw (hiByeAt 50 7 false true) rfl <|
  tokens_step kw (hiByeAt 125 8 false true) rfl <|
  tokens_step kw (hiByeAt 32 9 true true) rfl <|
  tokens_step kw (hiByeAt 98 10 true true) rfl <|
  tokens_step kw (hiByeAt 121 11 true true) rfl <|
  tokens_step kw (hiByeAt 101 12 true true) rfl <|
  tokens_step kw (hiByeAt 39 13 true true) rfl <|
  tokens_step kw (hiByeAt 0 14 false true) rfl <|
  tokens_step kw (hiByeAt 0 15 false true) rfl <|
  tokens_zero kw _

/-- C1 (counterexample): the first fourteen tokens of `'hi {1+2} bye'` are not
the listed sequence; the fifth token is INT 1, not a brace-open token. -/
theorem hiBye_tokens_not_listed :
    tokens identOnly 14 (New hiBye) ≠ hiByeListed ∧
      nthToken identOnly 4 (New hiBye) = ⟨TokenType.INT, ascii "1"⟩ := by
  decide

/-- Inside an interpolated string, at the end of input, `NextToken` returns a
BYTES token for the byte 0 and stays inside the string at the end of input. -/
theorem NextToken_interpolation_at_end (kw : GoString → TokenType) (l : Lexer)
    (hp : l.paused = false) (hi : l.interpolation = true) (hc : l.ch = 0)
    (hr : l.input.length ≤ l.readPosition) :
    (NextToken kw l).1 = ⟨TokenType.BYTES, [0]⟩ ∧
      (NextToken kw l).2.paused = false ∧ (NextToken kw l).2.interpolation = true ∧
      (NextToken kw l).2.ch = 0 ∧
      (NextToken kw l).2.input.length ≤ (NextToken kw l).2.readPosition := by
  have hr1 : l.input.length ≤ l.readPosition + 1 := Nat.le_succ_of_le hr
  simp [NextToken, hp, hi, hc, isSingleQuote, newToken, byteToString, readChar, hr, hr1]

/-- After its first token (the opening quote), the lexer on `openQuote` is
inside the string at the end of input, and stays so. -/
theorem openQuote_after (kw : GoString → TokenType) (n : Nat) :
    (after kw (n + 1) (New openQuote)).paused = false ∧
      (after kw (n + 1) (New openQuote)).interpolation = true ∧
      (after kw (n + 1) (New openQuote)).ch = 0 ∧
      (after kw (n + 1) (New openQuote)).input.length ≤
        (after kw (n + 1) (New openQuote)).readPosition := by
  induction n with
  | zero => exact ⟨rfl, rfl, rfl, (by decide : (1 : Nat) ≤ 2)⟩
  | succ n ih =>
    rw [after_succ]
    obtain ⟨h1, h2, h3, h4⟩ := ih
    exact (NextToken_interpolation_at_end kw _ h1 h2 h3 h4).2

/-- C2 (the code at the failing input): on the source text `'` no call of
`NextToken` ever returns EOF: the first returns the interpolation-start token
and every later one a BYTES token for the byte 0. -/
theorem openQuote_never_EOF (kw : GoString → TokenType) (n : Nat) :
    (nthToken kw n (New openQuote)).Kind ≠ TokenType.EOF ∧
      nthToken kw (n + 1) (New openQuote) = ⟨TokenType.BYTES, [0]⟩ := by
  have hsucc : ∀ m, nthToken kw (m + 1) (New openQuote) = ⟨TokenType.BYTES, [0]⟩ := by
    intro m
    obtain ⟨h1, h2, h3, h4⟩ := openQuote_after kw m
    exact (NextToken_interpolation_at_end kw _ h1 h2 h3 h4).1
  refine ⟨?_, hsucc n⟩
  cases n with
  | zero => exact (by decide : TokenType.ISTRING ≠ TokenType.EOF)
  | succ m => rw [hsucc m]; decide

/-! ## The evaluator -/

theorem wrap64_of_isInt64 (x : Int) (h : isInt64 x) : wrap64 x = x := by
  unfold isInt64 minInt64 maxInt64 at h
  unfold wrap64
  omega

/-- The truncated quotient of an `int64` by a non-zero integer is an `int64`,
except for the least `int64` divided by `-1`. -/
theorem tdiv_isInt64 (a b : Int) (ha : isInt64 a) (hb0 : b ≠ 0)
    (hne : ¬ (a = minInt64 ∧ b = -1)) : isInt64 (Int.tdiv a b) := by
  unfold isInt64 minInt64 maxInt64 at *
  have hq : (Int.tdiv a b).natAbs = a.natAbs / b.natAbs := Int.natAbs_tdiv a b
  have hqa : (Int.tdiv a b).natAbs ≤ a.natAbs := hq ▸ Nat.div_le_self _ _
  by_cases hb1 : b = -1
  · subst hb1
    have : Int.tdiv a (-1) = -a := by
      rw [Int.tdiv_neg, Int.tdiv_one]
    rw [this]
    omega
  · by_cases hb2 : b = 1
    · subst hb2
      rw [Int.tdiv_one]
      exact ha
    · have h2 : 2 ≤ b.natAbs := by omega
      have hhalf : a.natAbs / b.natAbs ≤ a.natAbs / 2 := Nat.div_le_div_left h2 (by decide)
      omega

theorem Eval_infixOfLiterals_div (a b : Int) (hb0 : b ≠ 0) :
    Eval (infixOfLiterals a (ascii "/") b) =
      Except.ok (some (Object.Integer (wrap64 (Int.tdiv a b)))) := by
  simp [Eval, infixOfLiterals, evalExpression, evalInfixExpression, evalIntInfixExpression,
    Object.Kind, hb0, ascii, bind, Except.bind, pure, Except.pure]

/-- C3 (as amended): for 64-bit `a` and `b` with `b ≠ 0`, evaluating `a / b`
over integer literals returns the Integer `a div b` truncated toward zero,
except for the least 64-bit integer divided by `-1`, where the quotient does
not fit and the result is the least 64-bit integer again (wrap-around). -/
theorem Eval_div (a b : Int) (ha : isInt64 a) (_hb : isInt64 b) (hb0 : b ≠ 0) :
    (¬ (a = minInt64 ∧ b = -1) →
        Eval (infixOfLiterals a (ascii "/") b) =
          Except.ok (some (Object.Integer (Int.tdiv a b)))) ∧
      ((a = minInt64 ∧ b = -1) →
        Eval (infixOfLiterals a (ascii "/") b) =
          Except.ok (some (Object.Integer minInt64))) := by
  rw [Eval_infixOfLiterals_div a b hb0]
  constructor
  · intro hne
    rw [wrap64_of_isInt64 _ (tdiv_isInt64 a b ha hb0 hne)]
  · rintro ⟨rfl, rfl⟩
    decide

/-- C3 (witness): `-7 / 2` evaluates to the Integer `-3`. -/
theorem Eval_div_witness :
    Eval (infixOfLiterals (-7) (ascii "/") 2) = Except.ok (some (Object.Integer (-3))) :=
  (Eval_div (-7) 2 (by decide) (by decide) (by decide)).1 (by decide)

/-- C3 (counterexample): the least 64-bit integer divided by `-1` evaluates to
itself, which is not the quotient truncated toward zero. -/
theorem Eval_div_minInt64 :
    Eval (infixOfLiterals minInt64 (ascii "/") (-1)) =
        Except.ok (some (Object.Integer minInt64)) ∧
      Eval (infixOfLiterals minInt64 (ascii "/") (-1)) ≠
        Except.ok (some (Object.Integer (Int.tdiv minInt64 (-1)))) := by
  decide

/-- C4 (the code at the failing inputs): for every integer `a`, evaluating
`a / 0` over integer literals fails at host level with a division by zero; no
Error object is returned. -/
theorem Eval_div_zero (a : Int) :
    Eval (infixOfLiterals a (ascii "/") 0) = Except.error HostFailure.divideByZero := by
  simp [Eval, infixOfLiterals, evalExpression, evalInfixExpression, evalIntInfixExpression,
    Object.Kind, ascii, bind, Except.bind, pure, Except.pure, throw, throwThe,
    MonadExceptOf.throw]

/-- C5: applying `!` twice preserves truthiness for every object (and for the
nil interface), where exactly `FALSE` and `NULL` are falsy; the Integer zero is
truthy. -/
theorem bang_bang_isTrue (x : Option Object) :
    isTrue (some (evalBangOperatorExpression (some (evalBangOperatorExpression x)))) =
        isTrue x ∧
      (isTrue x = false ↔ (x = some FALSE ∨ x = some NULL)) ∧
      isTrue (some (Object.Integer 0)) = true := by
  refine ⟨?_, ?_, by decide⟩
  · by_cases h1 : x = some TRUE
    · subst h1; decide
    · by_cases h2 : x = some FALSE
      · subst h2; decide
      · by_cases h3 : x = some NULL
        · subst h3; decide
        · simp only [evalBangOperatorExpression, isTrue, h1, h2, h3, if_false]
          decide
  · by_cases h1 : x = some TRUE
    · subst h1; decide
    · by_cases h2 : x = some FALSE
      · subst h2; decide
      · by_cases h3 : x = some NULL
        · subst h3; decide
        · simp [isTrue, h1, h2, h3]

/-! ## The builtins -/

theorem parseUint_append (acc : Nat) (xs : GoString) (d : Nat) :
    parseUint acc (xs ++ [d]) =
      (parseUint acc xs).bind (fun v => if isDigit d then some (v * 10 + (d - 48)) else none) := by
  induction xs generalizing acc with
  | nil => simp [parseUint]
  | cons x xs ih =>
    simp only [List.cons_append, parseUint]
    by_cases hx : isDigit x = true
    · simp only [hx, if_true]; exact ih _
    · simp [hx]

theorem isDigit_add (u : Nat) (h : u < 10) : isDigit (48 + u) = true := by
  simp [isDigit]; omega

theorem parseUint_formatUintLoop (f u : Nat) (h : u < f) :
    parseUint 0 (formatUintLoop f u) = some u := by
  induction f generalizing u with
  | zero => omega
  | succ f ih =>
    simp only [formatUintLoop]
    by_cases hu : u ≥ 10
    · simp only [hu, if_true]
      rw [parseUint_append, ih (u / 10) (by omega)]
      simp only [Option.bind, isDigit_add (u % 10) (Nat.mod_lt _ (by decide)), if_true]
      congr 1
      omega
    · simp only [hu, if_false, parseUint, isDigit_add u (by omega), if_true]
      congr 1
      omega

theorem formatUintLoop_head (f u : Nat) (h : u < f) :
    ∃ d rest, formatUintLoop f u = d :: rest ∧ 48 ≤ d ∧ d ≤ 57 := by
  induction f generalizing u with
  | zero => omega
  | succ f ih =>
    simp only [formatUintLoop]
    by_cases hu : u ≥ 10
    · obtain ⟨d, rest, he, h1, h2⟩ := ih (u / 10) (by omega)
      exact ⟨d, rest ++ [48 + u % 10], by simp [hu, he], h1, h2⟩
    · exact ⟨48 + u, [], by simp [hu], by omega, by omega⟩

/-- `strconv.Atoi` reads back what `%d` prints, for every `int64`. -/
theorem Atoi_formatInt (n : Int) (h : isInt64 n) : Atoi (formatInt n) = some n := by
  unfold isInt64 minInt64 maxInt64 at h
  obtain ⟨d, rest, he, h1, h2⟩ := formatUintLoop_head (n.natAbs + 1) n.natAbs (Nat.lt_succ_self _)
  have hp := parseUint_formatUintLoop (n.natAbs + 1) n.natAbs (Nat.lt_succ_self _)
  by_cases hn : n < 0
  · have hf : formatInt n = 45 :: formatUintLoop (n.natAbs + 1) n.natAbs := by
      simp [formatInt, hn]
    have hne : formatUintLoop (n.natAbs + 1) n.natAbs ≠ [] := by rw [he]; simp
    have hle : ¬ (n.natAbs > 2 ^ 63) := by omega
    simp only [Atoi, hf, List.head?_cons, List.tail_cons, hne, hp, if_false, if_true,
      or_true, hle]
    congr 1
    omega
  · have hf : formatInt n = d :: rest := by
      simp [formatInt, hn, he]
    have hd1 : ¬ (d = 43) := by omega
    have hd2 : ¬ (d = 45) := by omega
    have hlt : ¬ (n.natAbs ≥ 2 ^ 63) := by omega
    have hp2 : parseUint 0 (d :: rest) = some n.natAbs := he ▸ hp
    simp only [Atoi, hf, List.head?_cons, Option.some.injEq, hd1, hd2, or_self, if_false,
      hp2, hlt]
    simp
    omega

/-- C6: for every 64-bit integer `n`, `str` of the Integer `n` returns a String
on which `int` returns the Integer `n`; neither call changes the world. -/
theorem int_str_roundtrip (host : Host) (w : World) (n : Int) (h : isInt64 n) :
    ∃ s, callBuiltin (builtins host) (ascii "str") w [Object.Integer n] =
          some (Except.ok (s, w)) ∧
      callBuiltin (builtins host) (ascii "int") w [s] =
          some (Except.ok (Object.Integer n, w)) := by
  refine ⟨Object.String (formatInt n), ?_, ?_⟩
  · rfl
  · show some (builtinInt w [Object.String (formatInt n)]) = _
    simp [builtinInt, index, Atoi_formatInt n h, bind, Except.bind, pure, Except.pure]

/-- C6 (witness): the round trip at `n = -42`. -/
theorem int_str_roundtrip_witness :
    ∃ s, callBuiltin (builtins silentHost) (ascii "str") world123 [Object.Integer (-42)] =
          some (Except.ok (s, world123)) ∧
      callBuiltin (builtins silentHost) (ascii "int") world123 [s] =
          some (Except.ok (Object.Integer (-42), world123)) :=
  int_str_roundtrip silentHost world123 (-42) (by decide)

/-- Every character of an ASCII text is one byte. -/
theorem charCount_ascii (v : GoString) (h : ∀ b ∈ v, b < 128) : charCount v = v.length := by
  unfold charCount
  rw [List.filter_eq_self.mpr]
  intro b hb
  have := h b hb
  have h2 : b / 64 ≠ 2 := by omega
  simpa using h2

/-- C7 (as amended): on one argument `x`, `len` returns the Integer number of
bytes of a String (its character count when the text is ASCII), the Integer
number of members of an Array, and for every other variant a no-such-method
Error built from `len` and the type tag of `x`. -/
theorem builtinLen_spec (host : Host) (w : World) (x : Object) :
    (∀ v, x = Object.String v →
        callBuiltin (builtins host) (ascii "len") w [x] =
            some (Except.ok (Object.Integer v.length, w)) ∧
          ((∀ b ∈ v, b < 128) → (v.length : Int) = charCount v)) ∧
      (∀ a, x = Object.Array a →
        callBuiltin (builtins host) (ascii "len") w [x] =
          some (Except.ok (Object.Integer (w.members a).length, w))) ∧
      ((∀ v, x ≠ Object.String v) → (∀ a, x ≠ Object.Array a) →
        callBuiltin (builtins host) (ascii "len") w [x] =
          some (Except.ok
            (newError ErrorKind.NOMETHODERROR [ErrArg.str (ascii "len"), ErrArg.str x.Kind],
              w))) := by
  refine ⟨?_, ?_, ?_⟩
  · rintro v rfl
    exact ⟨rfl, fun hv => by rw [charCount_ascii v hv]⟩
  · rintro a rfl
    rfl
  · intro hs ha
    cases x with
    | String v => exact absurd rfl (hs v)
    | Array a => exact absurd rfl (ha a)
    | _ => rfl

/-- C7 (witness): `len(5)` is a no-such-method Error naming `len` and INTEGER. -/
theorem builtinLen_spec_witness :
    callBuiltin (builtins silentHost) (ascii "len") world123 [Object.Integer 5] =
      some (Except.ok
        (newError ErrorKind.NOMETHODERROR
          [ErrArg.str (ascii "len"), ErrArg.str (ascii "INTEGER")], world123)) :=
  (builtinLen_spec silentHost world123 (Object.Integer 5)).2.2
    (fun _ h => Object.noConfusion h) (fun _ h => Object.noConfusion h)

/-- C7 (counterexample): on the one-character String `é` `len` returns 2, its
number of bytes, not its character count 1. -/
theorem builtinLen_eAcute :
    (callBuiltin (builtins silentHost) (ascii "len") world123 [Object.String eAcute]).map
        returned = some (Except.ok (Object.Integer 2)) ∧
      charCount eAcute = 1 ∧
      (callBuiltin (builtins silentHost) (ascii "len") world123 [Object.String eAcute]).map
        returned ≠ some (Except.ok (Object.Integer (charCount eAcute))) := by
  decide

/-- C8 (the code at the failing input): `puts` called with no argument fails at
host level with an index out of range; no Error object is returned. -/
theorem puts_no_arguments (host : Host) (w : World) :
    callBuiltin (builtins host) (ascii "puts") w [] =
      some (Except.error HostFailure.indexOutOfRange) := by
  rfl

/-- The other builtins of `builtins` answer every argument list of a length
other than 1 with an argument-count Error. -/
theorem builtins_arity_error (host : Host) (w : World) (name : GoString) (args : List Object)
    (hname : name = ascii "int" ∨ name = ascii "str" ∨ name = ascii "len" ∨
      name = ascii "methods" ∨ name = ascii "type")
    (hlen : args.length ≠ 1) :
    callBuiltin (builtins host) name w args =
      some (Except.ok
        (newError ErrorKind.ARGUMENTERROR [ErrArg.str (ascii "1"), ErrArg.int args.length],
          w)) := by
  rcases hname with h | h | h | h | h <;> subst h <;>
    simp [callBuiltin, builtins, ascii, builtinInt, builtinStr, builtinLen, builtinMethods,
      builtinType, hlen, pure, Except.pure]

/-- The builtins `pop` and `push` of `Builtins` answer every argument list of a
length they do not accept with an Error. -/
theorem Builtins_arity_error (host : Host) (w : World) (args : List Object) :
    (args.length ≠ 1 → args.length ≠ 2 →
        ∃ msg, callBuiltin (Builtins host) (ascii "pop") w args =
          some (Except.ok (Object.ErrorMessage msg, w))) ∧
      (args.length ≠ 2 →
        ∃ msg, callBuiltin (Builtins host) (ascii "push") w args =
          some (Except.ok (Object.ErrorMessage msg, w))) := by
  constructor
  · intro h1 h2
    exact ⟨ascii "too many arguments. expected=1 or 2. got=" ++ formatInt args.length,
      by simp [callBuiltin, Builtins, ascii, objectPop, h1, h2, pure, Except.pure]⟩
  · intro h2
    exact ⟨ascii "too many arguments. expected=1. got=" ++ formatInt args.length,
      by simp [callBuiltin, Builtins, ascii, objectPush, h2, pure, Except.pure]⟩

theorem World.setMembers_members (w : World) (a : Nat) (ms : List Object) :
    (w.setMembers a ms).members a = ms := by
  simp [World.setMembers]

/-- C9: for every object `item` and every Array with members `m`,
`push(item, arr)` returns that same array, whose members are then `m` followed
by `item`: one member more, the first `len(m)` unchanged. -/
theorem push_spec (host : Host) (w : World) (item : Object) (a : Nat) :
    ∃ w1, callBuiltin (Builtins host) (ascii "push") w [item, Object.Array a] =
          some (Except.ok (Object.Array a, w1)) ∧
      w1.members a = w.members a ++ [item] ∧
      (w1.members a).length = (w.members a).length + 1 ∧
      (w1.members a).take (w.members a).length = w.members a := by
  refine ⟨w.setMembers a (w.members a ++ [item]), rfl, ?_, ?_, ?_⟩
  · exact World.setMembers_members _ _ _
  · rw [World.setMembers_members]; simp
  · rw [World.setMembers_members]; simp

/-- The example of C9: `push(4, [1,2,3])` returns the array, then `[1,2,3,4]`. -/
theorem push_example :
    ∃ w1, callBuiltin (Builtins silentHost) (ascii "push") world123
          [Object.Integer 4, Object.Array 0] = some (Except.ok (Object.Array 0, w1)) ∧
      w1.members 0 =
        [Object.Integer 1, Object.Integer 2, Object.Integer 3, Object.Integer 4] := by
  obtain ⟨w1, h1, h2, _⟩ := push_spec silentHost world123 (Object.Integer 4) 0
  exact ⟨w1, h1, h2⟩

/-- C10: for an Array with members `m` and an index `i` with `0 ≤ i < len(m)`,
`pop(i, arr)` returns `m[i]` and leaves the members `m` without position `i`,
the others in order; `pop(arr)` does the same for index 0. -/
theorem pop_spec (host : Host) (w : World) (a i : Nat) (x : Object)
    (hx : (w.members a)[i]? = some x) :
    (∃ w1, callBuiltin (Builtins host) (ascii "pop") w [Object.Integer i, Object.Array a] =
          some (Except.ok (x, w1)) ∧
        w1.members a = (w.members a).eraseIdx i) ∧
      (∀ y, (w.members a)[0]? = some y →
        ∃ w1, callBuiltin (Builtins host) (ascii "pop") w [Object.Array a] =
            some (Except.ok (y, w1)) ∧
          w1.members a = (w.members a).eraseIdx 0) := by
  constructor
  · refine ⟨w.setMembers a ((w.members a).eraseIdx i), ?_, World.setMembers_members _ _ _⟩
    have hlt : i < (w.members a).length := by
      by_contra hge
      rw [List.getElem?_eq_none (Nat.le_of_not_lt hge)] at hx
      exact Option.noConfusion hx
    show some (objectPop host w [Object.Integer i, Object.Array a]) = _
    have hnl : ¬ ((i : Int) < 0) := by omega
    have hng : ¬ ((w.members a).length ≤ i) := by omega
    simp [objectPop, index, bind, Except.bind, pure, Except.pure, hnl, hng, hx,
      List.eraseIdx_eq_take_drop_succ]
  · intro y hy
    refine ⟨w.setMembers a ((w.members a).eraseIdx 0), ?_, World.setMembers_members _ _ _⟩
    cases hm : w.members a with
    | nil => rw [hm] at hy; exact Option.noConfusion hy
    | cons p rest =>
      rw [hm] at hy
      have hp : p = y := by simpa using hy
      subst hp
      show some (objectPop host w [Object.Array a]) = _
      simp [objectPop, index, bind, Except.bind, pure, Except.pure, hm]

/-- C10 (witness): `pop(1, [1,2,3])` returns 2 and leaves `[1,3]`;
`pop([1,2,3])` returns 1 and leaves `[2,3]`. -/
theorem pop_spec_witness :
    (∃ w1, callBuiltin (Builtins silentHost) (ascii "pop") world123
          [Object.Integer 1, Object.Array 0] = some (Except.ok (Object.Integer 2, w1)) ∧
        w1.members 0 = [Object.Integer 1, Object.Integer 3]) ∧
      (∃ w1, callBuiltin (Builtins silentHost) (ascii "pop") world123 [Object.Array 0] =
          some (Except.ok (Object.Integer 1, w1)) ∧
        w1.members 0 = [Object.Integer 2, Object.Integer 3]) :=
  ⟨(pop_spec silentHost world123 0 1 (Object.Integer 2) rfl).1,
    (pop_spec silentHost world123 0 1 (Object.Integer 2) rfl).2 (Object.Integer 1) rfl⟩

/-! ## Method dispatch -/

/-- C11: for every method name and argument list, `CallMethod` on an Integer,
Boolean, Null, Break, ReturnValue, Function, Builtin or IncludedObject returns a
no-such-method Error built from the method name and the type tag of the
receiver; on a Struct whose method table has no entry of that name it returns
the same Error with the tag STRUCT, whatever the evaluation of a found method
would do. -/
theorem CallMethod_no_such_method (d : Dispatch) (method : GoString) (args : List Object) :
    (∀ v, (Object.Integer v).CallMethod d method args =
        Except.ok (newError ErrorKind.NOMETHODERROR
          [ErrArg.str method, ErrArg.str INTEGER_OBJ])) ∧
      (∀ b, (Object.Boolean b).CallMethod d method args =
        Except.ok (newError ErrorKind.NOMETHODERROR
          [ErrArg.str method, ErrArg.str BOOLEAN_OBJ])) ∧
      (Object.Null.CallMethod d method args =
        Except.ok (newError ErrorKind.NOMETHODERROR
          [ErrArg.str method, ErrArg.str NULL_OBJ])) ∧
      (Object.Break.CallMethod d method args =
        Except.ok (newError ErrorKind.NOMETHODERROR
          [ErrArg.str method, ErrArg.str BREAK_OBJ])) ∧
      (∀ v, (Object.ReturnValue v).CallMethod d method args =
        Except.ok (newError ErrorKind.NOMETHODERROR
          [ErrArg.str method, ErrArg.str RETURN_VALUE_OBJ])) ∧
      (∀ lit scope, (Object.Function lit scope).CallMethod d method args =
        Except.ok (newError ErrorKind.NOMETHODERROR
          [ErrArg.str method, ErrArg.str FUNCTION_OBJ])) ∧
      (∀ fn, (Object.Builtin fn).CallMethod d method args =
        Except.ok (newError ErrorKind.NOMETHODERROR
          [ErrArg.str method, ErrArg.str BUILTIN_OBJ])) ∧
      (∀ name scope, (Object.IncludedObject name scope).CallMethod d method args =
        Except.ok (newError ErrorKind.NOMETHODERROR
          [ErrArg.str method, ErrArg.str INCLUDED_OBJ])) ∧
      (∀ scope methods, methods.lookup method = none →
        (Object.Struct scope methods).CallMethod d method args =
          Except.ok (newError ErrorKind.NOMETHODERROR
            [ErrArg.str method, ErrArg.str STRUCT_OBJ])) := by
  refine ⟨fun _ => rfl, fun _ => rfl, rfl, rfl, fun _ => rfl, fun _ _ => rfl, fun _ => rfl,
    fun _ _ => rfl, ?_⟩
  intro scope methods h
  simp only [Object.CallMethod, h]
  rfl

/-- C11 (witness): `foo` called on a Struct whose only method is `greet` is a
no-such-method Error naming `foo` and STRUCT. -/
theorem CallMethod_no_such_method_witness :
    (Object.Struct 0 [(ascii "greet", 1, 0)]).CallMethod failingDispatch (ascii "foo") [] =
      Except.ok (newError ErrorKind.NOMETHODERROR
        [ErrArg.str (ascii "foo"), ErrArg.str (ascii "STRUCT")]) :=
  (CallMethod_no_such_method failingDispatch (ascii "foo") []).2.2.2.2.2.2.2.2 0
    [(ascii "greet", 1, 0)] (by decide)

/-! ## The lexer: strings, operators, end of input -/

namespace Lexer

theorem readChar_eq_seek (l : Lexer) : readChar l = l.seek l.readPosition := by
  unfold readChar seek
  by_cases h : l.readPosition ≥ l.input.length
  · simp [h, List.getElem?_eq_none h]
  · simp [h]

theorem getD_append_cons (pre : GoString) (c : Nat) (rest : GoString) :
    (pre ++ c :: rest).getD pre.length 0 = c := by
  induction pre with
  | nil => rfl
  | cons a pre ih => simpa using ih

theorem getD_length (pre : GoString) : pre.getD pre.length 0 = 0 := by
  simp

theorem slice_middle (a s r : GoString) :
    slice (a ++ s ++ r) a.length (a.length + s.length) = s := by
  unfold slice
  rw [← List.length_append, List.take_left, List.drop_left]

theorem seek_seek (l : Lexer) (p q : Nat) : (l.seek p).seek q = l.seek q := rfl

theorem skipWhitespace_of_not (l : Lexer) (h : isWhitespace l.ch = false) :
    skipWhitespace l = l :=
  readWhile_of_not isWhitespace _ l h

theorem normalToken_at_zero (kw : GoString → TokenType) (l : Lexer) (hc : l.ch = 0) :
    normalToken kw l = (⟨TokenType.EOF, []⟩, readChar l) := by
  have hs : skipWhitespace l = l := skipWhitespace_of_not l (by rw [hc]; rfl)
  simp only [normalToken, hs, hc]


/-- The loop of `readString` over a terminated string: from just before the
text `s`, which holds neither a double quote nor the byte 0 and is followed by
a double quote, the loop ends just after that quote. -/
theorem readStringLoop_found (s pre post : GoString) (l : Lexer) (n : Nat)
    (hin : l.input = pre ++ s ++ 34 :: post) (hr : l.readPosition = pre.length)
    (hs : ∀ b ∈ s, b ≠ 34 ∧ b ≠ 0) (hn : s.length < n) :
    readStringLoop n l = (true, l.seek (pre.length + s.length + 1)) := by
  induction s generalizing pre l n with
  | nil =>
    cases n with
    | zero => simp at hn
    | succ n =>
      have hch : (readChar l).ch = 34 := by
        rw [readChar_eq_seek, hr]
        show l.input.getD pre.length 0 = 34
        rw [hin, List.append_nil, getD_append_cons]
      simp only [readStringLoop, hch, isQuote]
      rw [readChar_eq_seek, readChar_eq_seek, seek_seek, hr]
      simp [seek]
  | cons c s ih =>
    cases n with
    | zero => simp at hn
    | succ n =>
      have hc := hs c (List.mem_cons_self _ _)
      have hch : (readChar l).ch = c := by
        rw [readChar_eq_seek, hr]
        show l.input.getD pre.length 0 = c
        rw [hin, List.append_assoc, List.cons_append, getD_append_cons]
      have hq : isQuote c = false := by simp [isQuote, hc.1]
      simp only [readStringLoop, hch, hq, hc.2, if_false, Bool.false_eq_true]
      rw [ih (pre ++ [c]) (readChar l) n (by simp [readChar, hin])
        (by simp [readChar, hr]) (fun b hb => hs b (List.mem_cons_of_mem _ hb))
        (by simpa using hn)]
      rw [readChar_eq_seek, seek_seek]
      simp [Nat.add_assoc, Nat.add_comm 1]

/-- The loop of `readString` over an unterminated string: from just before the
text `s`, which holds neither a double quote nor the byte 0 and ends the input,
the loop reports the error at the end of input. -/
theorem readStringLoop_unterminated (s pre : GoString) (l : Lexer) (n : Nat)
    (hin : l.input = pre ++ s) (hr : l.readPosition = pre.length)
    (hs : ∀ b ∈ s, b ≠ 34 ∧ b ≠ 0) (hn : s.length < n) :
    readStringLoop n l = (false, l.seek (pre.length + s.length)) := by
  induction s generalizing pre l n with
  | nil =>
    cases n with
    | zero => simp at hn
    | succ n =>
      have hch : (readChar l).ch = 0 := by
        rw [readChar_eq_seek, hr]
        show l.input.getD pre.length 0 = 0
        rw [hin, List.append_nil, getD_length]
      have hq : isQuote 0 = false := rfl
      simp only [readStringLoop, hch, hq, if_true, if_false, Bool.false_eq_true]
      rw [readChar_eq_seek, hr]
      simp
  | cons c s ih =>
    cases n with
    | zero => simp at hn
    | succ n =>
      have hc := hs c (List.mem_cons_self _ _)
      have hch : (readChar l).ch = c := by
        rw [readChar_eq_seek, hr]
        show l.input.getD pre.length 0 = c
        rw [hin, getD_append_cons]
      have hq : isQuote c = false := by simp [isQuote, hc.1]
      simp only [readStringLoop, hch, hq, hc.2, if_false, Bool.false_eq_true]
      rw [ih (pre ++ [c]) (readChar l) n (by simp [readChar, hin])
        (by simp [readChar, hr]) (fun b hb => hs b (List.mem_cons_of_mem _ hb))
        (by simpa using hn)]
      rw [readChar_eq_seek, seek_seek]
      simp [Nat.add_assoc, Nat.add_comm 1]

end Lexer

/-- C12 (as amended): in Normal mode, at a double quote followed by a text `s`
that holds neither a double quote nor the byte 0 and then by a closing double
quote, `NextToken` returns one STRING token whose literal is exactly `s` and
leaves the lexer at the position just after the closing quote, the byte there
(0 at the end of input) being the current one. -/
theorem NextToken_string (kw : GoString → TokenType) (l : Lexer) (pre s post : GoString)
    (hi : l.interpolation = false) (hc : l.ch = 34) (hpos : l.position = pre.length)
    (hr : l.readPosition = pre.length + 1) (hin : l.input = pre ++ 34 :: s ++ 34 :: post)
    (hs : ∀ b ∈ s, b ≠ 34 ∧ b ≠ 0) :
    NextToken kw l = (⟨TokenType.STRING, s⟩, l.seek (pre.length + s.length + 2)) ∧
      (l.seek (pre.length + s.length + 2)).ch = post.headD 0 ∧
      (l.seek (pre.length + s.length + 2)).interpolation = false := by
  have hin2 : l.input = (pre ++ [34]) ++ s ++ 34 :: post := by simp [hin]
  have hloop := readStringLoop_found s (pre ++ [34]) post l l.loopBound hin2 (by simp [hr])
    hs (by simp [loopBound, hin, hr]; omega)
  have hskip : skipWhitespace l = l := skipWhitespace_of_not l (by rw [hc]; rfl)
  have hslice : slice l.input (pre.length + 1) (pre.length + 1 + s.length) = s := by
    have := slice_middle (pre ++ [34]) s (34 :: post)
    rw [← hin2] at this
    simpa using this
  refine ⟨?_, ?_, hi⟩
  · have hb : (l.paused && l.ch == 125) = false := by simp [hc]
    simp only [NextToken, hb, hi, Bool.false_eq_true, if_false]
    simp only [normalToken, hskip, hc]
    have h1 : isLetter 34 = false := rfl
    have h2 : isDigit 34 = false := rfl
    have h3 : isQuote 34 = true := rfl
    simp only [h1, h2, h3, if_true, if_false, Bool.false_eq_true, readString, hloop, hpos]
    have hq : (l.seek ((pre ++ [34]).length + s.length + 1)).position - 1 =
        pre.length + 1 + s.length := by
      simp [seek]
    rw [hq, hslice]
    congr 2
    simp only [List.length_append, List.length_singleton]
    omega
  · show l.input.getD (pre.length + s.length + 2) 0 = post.headD 0
    rw [hin2]
    have : pre.length + s.length + 2 = (pre ++ [34] ++ s ++ [34]).length := by
      simp; omega
    rw [this]
    cases post with
    | nil =>
      have := getD_length (pre ++ [34] ++ s ++ [34])
      simpa using this
    | cons p post =>
      have := getD_append_cons (pre ++ [34] ++ s ++ [34]) p post
      simpa using this

/-- C13: in Normal mode, at a double quote followed by a text that holds neither
a double quote nor the byte 0 and ends the input, `NextToken` returns an ILLEGAL
token (no STRING token), leaves the lexer past the end of input without a token
for any of the text, and the next token is EOF. -/
theorem NextToken_unterminated (kw : GoString → TokenType) (l : Lexer) (pre s : GoString)
    (hi : l.interpolation = false) (hc : l.ch = 34)
    (hr : l.readPosition = pre.length + 1) (hin : l.input = pre ++ 34 :: s)
    (hs : ∀ b ∈ s, b ≠ 34 ∧ b ≠ 0) :
    (NextToken kw l).1 = ⟨TokenType.ILLEGAL, [0]⟩ ∧
      (NextToken kw l).1.Kind ≠ TokenType.STRING ∧
      l.input.length < (NextToken kw l).2.position ∧
      (NextToken kw (NextToken kw l).2).1 = ⟨TokenType.EOF, []⟩ := by
  have hin2 : l.input = (pre ++ [34]) ++ s := by simp [hin]
  have hloop := readStringLoop_unterminated s (pre ++ [34]) l l.loopBound hin2 (by simp [hr])
    hs (by simp [loopBound, hin, hr]; omega)
  have hskip : skipWhitespace l = l := skipWhitespace_of_not l (by rw [hc]; rfl)
  have hlen : (pre ++ [34]).length + s.length = l.input.length := by
    simp [hin]; omega
  have hz : l.input.getD l.input.length 0 = 0 := getD_length _
  have hstep : NextToken kw l = (⟨TokenType.ILLEGAL, [0]⟩, l.seek (l.input.length + 1)) := by
    have hb : (l.paused && l.ch == 125) = false := by simp [hc]
    simp only [NextToken, hb, hi, Bool.false_eq_true, if_false]
    simp only [normalToken, hskip, hc]
    have h1 : isLetter 34 = false := rfl
    have h2 : isDigit 34 = false := rfl
    have h3 : isQuote 34 = true := rfl
    simp only [h1, h2, h3, if_true, if_false, Bool.false_eq_true, readString, hloop, hlen]
    rw [readChar_eq_seek, seek_seek]
    simp [seek, newToken, byteToString, hz]
  rw [hstep]
  refine ⟨rfl, (by decide : TokenType.ILLEGAL ≠ TokenType.STRING), by simp [seek], ?_⟩
  have hz2 : (l.seek (l.input.length + 1)).ch = 0 := by
    simp [seek, List.getD, List.getElem?_eq_none]
  have hb : ((l.seek (l.input.length + 1)).paused &&
      (l.seek (l.input.length + 1)).ch == 125) = false := by simp [hz2]
  have hi2 : (l.seek (l.input.length + 1)).interpolation = false := hi
  simp only [NextToken, hb, hi2, Bool.false_eq_true, if_false]
  rw [normalToken_at_zero kw _ hz2]

/-- C12 (witness): the first token of `"ab" x` is STRING `ab`, and the lexer is
left at position 4, just after the closing quote. -/
theorem NextToken_string_witness :
    NextToken identOnly (New quotedAb) =
      (⟨TokenType.STRING, ascii "ab"⟩, (New quotedAb).seek 4) :=
  (NextToken_string identOnly (New quotedAb) [] (ascii "ab") (ascii " x") rfl rfl rfl rfl rfl
    (by decide)).1

/-- C12 (counterexample): the text between the quotes of `quotedNul` holds no
double quote, yet the first token is ILLEGAL, not a STRING token with that text:
the byte 0 in it is read as the end of input. -/
theorem NextToken_quotedNul :
    (NextToken identOnly (New quotedNul)).1 = ⟨TokenType.ILLEGAL, [0]⟩ ∧
      (NextToken identOnly (New quotedNul)).1 ≠ ⟨TokenType.STRING, [97, 0, 98]⟩ := by
  decide

/-- C13 (witness): the first token of `"abc` is ILLEGAL and the second is EOF. -/
theorem NextToken_unterminated_witness :
    (NextToken identOnly (New unterminatedAbc)).1 = ⟨TokenType.ILLEGAL, [0]⟩ ∧
      (NextToken identOnly (New unterminatedAbc)).1.Kind ≠ TokenType.STRING ∧
      unterminatedAbc.length < (NextToken identOnly (New unterminatedAbc)).2.position ∧
      (NextToken identOnly (NextToken identOnly (New unterminatedAbc)).2).1 =
        ⟨TokenType.EOF, []⟩ :=
  NextToken_unterminated identOnly (New unterminatedAbc) [] (ascii "abc") rfl rfl rfl rfl
    (by decide)

/-- Lines 77 to 79 of `NextToken`: in Interpolating mode, when the current byte
`c` is not a single quote, not a `{` followed by something other than `}`, and
not a `}` met while `paused` is set, the token is `newToken(token.BYTES, c)`,
whose literal is the byte `c` itself when `c` is below 0x80, and the lexer has
done one `readChar`. -/
theorem NextToken_bytes (kw : GoString → TokenType) (l : Lexer)
    (hi : l.interpolation = true) (hq : l.ch ≠ 39)
    (hb : ¬ (l.ch = 123 ∧ peekChar l ≠ 125)) (hp : ¬ (l.paused = true ∧ l.ch = 125)) :
    NextToken kw l = (⟨TokenType.BYTES, byteToString l.ch⟩, readChar l) ∧
      (l.ch < 128 → byteToString l.ch = [l.ch]) ∧
      (readChar l).position = l.readPosition ∧
      (readChar l).readPosition = l.readPosition + 1 := by
  refine ⟨?_, fun h => by simp [byteToString, h], rfl, rfl⟩
  have h1 : (l.paused && l.ch == 125) = false := by
    cases hpz : l.paused
    · rfl
    · simpa [hpz] using hp
  have h2 : isSingleQuote l.ch = false := by simp [isSingleQuote, hq]
  have h3 : (l.ch == 123 && peekChar l != 125) = false := by
    by_cases hc : l.ch = 123
    · have : peekChar l = 125 := by
        by_contra hne
        exact hb ⟨hc, hne⟩
      simp [hc, this]
    · simp [hc]
  simp only [NextToken, h1, hi, h2, h3, if_true, if_false, Bool.false_eq_true, newToken]

/-- An instance of `NextToken_bytes`: after the opening quote of
`'hi {1+2} bye'` the byte `h` is returned as the BYTES token `h`. -/
theorem NextToken_bytes_witness :
    NextToken identOnly (hiByeAt 104 1 true false) =
      (⟨TokenType.BYTES, ascii "h"⟩, readChar (hiByeAt 104 1 true false)) :=
  (NextToken_bytes identOnly (hiByeAt 104 1 true false) rfl (by decide) (by decide)
    (by decide)).1

/-- C14 (the code at the failing inputs): in `'é'` the two bytes C3 A9 are each
met in Interpolating mode and give BYTES tokens whose literals are C3 83 and
C2 A9, not the bytes themselves, while the same bytes between double quotes
come out unchanged as the STRING literal C3 A9; and in `'{1}}'` the second `}`
is met in Interpolating mode and gives an RBRACE token, not a BYTES token. -/
theorem NextToken_not_bytes :
    (after identOnly 1 (New quotedEAcute)).interpolation = true ∧
      (after identOnly 1 (New quotedEAcute)).ch = 195 ∧
      nthToken identOnly 1 (New quotedEAcute) = ⟨TokenType.BYTES, [195, 131]⟩ ∧
      (after identOnly 3 (New segmentThenBrace)).interpolation = true ∧
      (after identOnly 3 (New segmentThenBrace)).ch = 125 ∧
      nthToken identOnly 3 (New segmentThenBrace) = ⟨TokenType.RBRACE, [125]⟩ ∧
      (after identOnly 2 (New quotedEAcute)).interpolation = true ∧
      (after identOnly 2 (New quotedEAcute)).ch = 169 ∧
      nthToken identOnly 2 (New quotedEAcute) = ⟨TokenType.BYTES, [194, 169]⟩ ∧
      nthToken identOnly 0 (New doubleQuotedEAcute) = ⟨TokenType.STRING, [195, 169]⟩ := by
  decide

/-- C15: in Normal mode `-` followed by `>` is the single token ARROW `->`, `=`
followed by `=` the single token EQ `==`, and `!` followed by `=` the single
token NEQ `!=`; each time both bytes are consumed. -/
theorem NextToken_two_byte_operators (kw : GoString → TokenType) (l : Lexer)
    (hi : l.interpolation = false) :
    (l.ch = 45 → peekChar l = 62 →
        NextToken kw l = (⟨TokenType.ARROW, [45, 62]⟩, readChar (readChar l))) ∧
      (l.ch = 61 → peekChar l = 61 →
        NextToken kw l = (⟨TokenType.EQ, [61, 61]⟩, readChar (readChar l))) ∧
      (l.ch = 33 → peekChar l = 61 →
        NextToken kw l = (⟨TokenType.NEQ, [33, 61]⟩, readChar (readChar l))) ∧
      (readChar (readChar l)).position = l.readPosition + 1 := by
  refine ⟨?_, ?_, ?_, rfl⟩
  · intro hc hp
    have hb : (l.paused && l.ch == 125) = false := by simp [hc]
    have hskip : skipWhitespace l = l := skipWhitespace_of_not l (by rw [hc]; rfl)
    simp only [NextToken, hb, hi, Bool.false_eq_true, if_false]
    simp only [normalToken, hskip, hc, hp, if_true]
    rfl
  · intro hc hp
    have hb : (l.paused && l.ch == 125) = false := by simp [hc]
    have hskip : skipWhitespace l = l := skipWhitespace_of_not l (by rw [hc]; rfl)
    simp only [NextToken, hb, hi, Bool.false_eq_true, if_false]
    simp only [normalToken, hskip, hc, hp, if_true]
    rfl
  · intro hc hp
    have hb : (l.paused && l.ch == 125) = false := by simp [hc]
    have hskip : skipWhitespace l = l := skipWhitespace_of_not l (by rw [hc]; rfl)
    simp only [NextToken, hb, hi, Bool.false_eq_true, if_false]
    simp only [normalToken, hskip, hc, hp, if_true]
    rfl

/-- C15 (witness): `-> == !=` is the three tokens ARROW, EQ, NEQ. -/
theorem NextToken_two_byte_operators_witness :
    NextToken identOnly (New twoByteOperators) =
        (⟨TokenType.ARROW, [45, 62]⟩, readChar (readChar (New twoByteOperators))) ∧
      tokens identOnly 3 (New twoByteOperators) =
        [⟨TokenType.ARROW, ascii "->"⟩, ⟨TokenType.EQ, ascii "=="⟩,
          ⟨TokenType.NEQ, ascii "!="⟩] :=
  ⟨(NextToken_two_byte_operators identOnly (New twoByteOperators) rfl).1 rfl rfl, by decide⟩

/-! ## The evaluator: conditionals and totality -/

theorem isTrue_eq_false_iff (v : Option Object) :
    isTrue v = false ↔ (v = some FALSE ∨ v = some NULL) := by
  by_cases h1 : v = some TRUE
  · subst h1; decide
  · by_cases h2 : v = some FALSE
    · subst h2; decide
    · by_cases h3 : v = some NULL
      · subst h3; decide
      · simp [isTrue, h1, h2, h3]

theorem Eval_expression (e : Expression) : Eval (Node.expression e) = evalExpression e := rfl

theorem evalExpression_if (c : Expression) (cons : List Statement)
    (alt : Option (List Statement)) :
    evalExpression (Expression.IfExpression c cons alt) =
      (evalExpression c).bind (fun condition =>
        if isTrue condition then evalStatementsFrom none cons
        else
          match alt with
          | some a => evalStatementsFrom none a
          | none => Except.ok (some NULL)) := by
  cases alt <;> rfl

/-- C16: `Eval` of a conditional evaluates the condition and, by its truthiness
(only `FALSE` and `NULL` falsy, the Integer zero truthy), returns the value of
exactly one branch: the consequence when truthy, the alternative when falsy and
present, `NULL` when falsy and absent. A condition that fails at host level
makes the conditional fail the same way. -/
theorem Eval_if (c : Expression) (cons : List Statement) (alt : Option (List Statement)) :
    (∀ v, Eval (Node.expression c) = Except.ok v →
        (isTrue v = true →
          Eval (Node.expression (Expression.IfExpression c cons alt)) = evalStatements cons) ∧
        (isTrue v = false → ∀ a, alt = some a →
          Eval (Node.expression (Expression.IfExpression c cons alt)) = evalStatements a) ∧
        (isTrue v = false → alt = none →
          Eval (Node.expression (Expression.IfExpression c cons alt)) =
            Except.ok (some NULL)) ∧
        (isTrue v = false ↔ (v = some FALSE ∨ v = some NULL))) ∧
      (∀ e, Eval (Node.expression c) = Except.error e →
        Eval (Node.expression (Expression.IfExpression c cons alt)) = Except.error e) ∧
      isTrue (some (Object.Integer 0)) = true := by
  simp only [Eval_expression, evalExpression_if, evalStatements]
  refine ⟨?_, ?_, by decide⟩
  · intro v hv
    rw [hv]
    refine ⟨?_, ?_, ?_, isTrue_eq_false_iff v⟩
    · intro ht
      simp [Except.bind, ht]
    · rintro hf a rfl
      simp [Except.bind, hf]
    · rintro hf rfl
      simp [Except.bind, hf]
  · intro e he
    rw [he]
    rfl

/-- C16 (witness): `if (0) { 1 } else { 2 }` takes the consequence, zero being
truthy. -/
theorem Eval_if_witness :
    Eval (Node.expression ifZero) =
      evalStatements [Statement.ExpressionStatement (Expression.IntegerLiteral 1)] :=
  ((Eval_if (Expression.IntegerLiteral 0)
      [Statement.ExpressionStatement (Expression.IntegerLiteral 1)]
      (some [Statement.ExpressionStatement (Expression.IntegerLiteral 2)])).1
    (some (Object.Integer 0)) rfl).1 rfl

theorem evalIntInfixExpression_ok (op : GoString) (a b : Object) (h : op ≠ ascii "/") :
    ∃ o, evalIntInfixExpression op a b = Except.ok o := by
  unfold evalIntInfixExpression
  split
  · simp only [h, if_false]
    split_ifs <;> exact ⟨_, rfl⟩
  · exact ⟨_, rfl⟩

theorem evalInfixExpression_ok (op : GoString) (a b : Object) (h : op ≠ ascii "/") :
    ∃ o, evalInfixExpression op (some a) (some b) = Except.ok o := by
  simp only [evalInfixExpression]
  split_ifs <;> first
    | exact evalIntInfixExpression_ok op a b h
    | exact ⟨_, rfl⟩

theorem evalExpression_ofInfix (l r : Expression) (op : GoString) :
    evalExpression (Expression.InfixExpression l op r) =
      (evalExpression l).bind (fun left =>
        (evalExpression r).bind (fun right =>
          (evalInfixExpression op left right).bind (fun v => Except.ok (some v)))) := rfl

theorem evalExpression_ofPrefix (r : Expression) (op : GoString) :
    evalExpression (Expression.PrefixExpression op r) =
      (evalExpression r).bind (fun right =>
        Except.ok (some (evalPrefixExpression op right))) := rfl

theorem evalStatementsFrom_cons (results : Option Object) (s : Statement)
    (rest : List Statement) :
    evalStatementsFrom results (s :: rest) =
      (evalStatement s).bind (fun v => evalStatementsFrom v rest) := rfl

mutual
/-- `Eval` of a listed expression without empty blocks returns an object. -/
theorem evalExpression_total :
    ∀ e : Expression, Expression.listed false e = true →
      ∃ o, evalExpression e = Except.ok (some o)
  | .InfixExpression l op r, h => by
    simp only [Expression.listed, Bool.and_eq_true, bne_iff_ne, ne_eq] at h
    obtain ⟨a, ha⟩ := evalExpression_total l h.1.1
    obtain ⟨b, hb⟩ := evalExpression_total r h.2
    obtain ⟨o, ho⟩ := evalInfixExpression_ok op a b h.1.2
    exact ⟨o, by rw [evalExpression_ofInfix, ha, hb]; simp only [Except.bind, ho]⟩
  | .PrefixExpression op r, h => by
    simp only [Expression.listed] at h
    obtain ⟨b, hb⟩ := evalExpression_total r h
    exact ⟨_, by rw [evalExpression_ofPrefix, hb]; rfl⟩
  | .IfExpression c cons none, h => by
    simp only [Expression.listed, Bool.and_eq_true, Bool.false_or, Bool.not_eq_true'] at h
    obtain ⟨v, hv⟩ := evalExpression_total c h.1.1
    rw [evalExpression_if, hv]
    simp only [Except.bind]
    split_ifs
    · exact evalStatementsFrom_total cons none h.2 (Or.inl (by simpa using h.1.2))
    · exact ⟨_, rfl⟩
  | .IfExpression c cons (some alt), h => by
    simp only [Expression.listed, Bool.and_eq_true, Bool.false_or, Bool.not_eq_true'] at h
    obtain ⟨v, hv⟩ := evalExpression_total c h.1.1.1.1
    rw [evalExpression_if, hv]
    simp only [Except.bind]
    split_ifs
    · exact evalStatementsFrom_total cons none h.1.1.2 (Or.inl (by simpa using h.1.1.1.2))
    · exact evalStatementsFrom_total alt none h.2 (Or.inl (by simpa using h.1.2))
  | .IntegerLiteral v, _ => ⟨_, rfl⟩
  | .Boolean b, _ => ⟨_, rfl⟩
  | .other, h => by simp [Expression.listed] at h
/-- `Eval` of a listed statement without empty blocks returns an object. -/
theorem evalStatement_total :
    ∀ s : Statement, Statement.listed false s = true →
      ∃ o, evalStatement s = Except.ok (some o)
  | .ExpressionStatement e, h => by
    simp only [Statement.listed] at h
    exact evalExpression_total e h
  | .other, h => by simp [Statement.listed] at h
/-- The loop of `evalStatements` over listed statements returns an object when
there is a statement to evaluate or `results` already holds one. -/
theorem evalStatementsFrom_total :
    ∀ (stmts : List Statement) (results : Option Object), listedAll false stmts = true →
      (stmts ≠ [] ∨ results.isSome = true) →
      ∃ o, evalStatementsFrom results stmts = Except.ok (some o)
  | [], results, _, hne => by
    rcases hne with hne | hne
    · exact absurd rfl hne
    · cases results with
      | none => simp at hne
      | some o => exact ⟨o, rfl⟩
  | s :: rest, results, h, _ => by
    simp only [listedAll, Bool.and_eq_true] at h
    obtain ⟨v, hv⟩ := evalStatement_total s h.1
    rw [evalStatementsFrom_cons, hv]
    exact evalStatementsFrom_total rest (some v) h.2 (Or.inr rfl)
end

/-- C17 (as amended): for every tree built from Program, ExpressionStatement,
InfixExpression, PrefixExpression, IfExpression, IntegerLiteral and Boolean
nodes that uses no `/` operator and in which the program and every block hold
at least one statement, `Eval` returns an object: never nil, and never a
host-level failure. -/
theorem Eval_total (node : Node) (h : Node.listed false node = true) :
    ∃ o, Eval node = Except.ok (some o) := by
  cases node with
  | Program stmts =>
    simp only [Node.listed, Bool.and_eq_true, Bool.false_or, Bool.not_eq_true'] at h
    exact evalStatementsFrom_total stmts none h.2 (Or.inl (by simpa using h.1))
  | statement s => exact evalStatement_total s h
  | expression e => exact evalExpression_total e h

/-- C17 (witness): the program `!(1 < 2)` evaluates to an object. -/
theorem Eval_total_witness : ∃ o, Eval notLess = Except.ok (some o) :=
  Eval_total notLess (by decide)

/-- C17 (counterexample): the empty program and `(if (true) { }) + 1` are built
from the named nodes without `/`, yet `Eval` returns nil on the first and fails
at host level with a nil dereference on the second. -/
theorem Eval_not_total :
    Node.listed true emptyProgram = true ∧ Eval emptyProgram = Except.ok none ∧
      Node.listed true emptyBlockPlusOne = true ∧
      Eval emptyBlockPlusOne = Except.error HostFailure.nilDereference := by
  decide

/-! ## The builtin `int` -/

theorem parseUint_eq_some (ds : GoString) (acc v : Nat) :
    parseUint acc ds = some v ↔
      ((∀ d ∈ ds, 48 ≤ d ∧ d ≤ 57) ∧ v = acc * 10 ^ ds.length + decimalValue ds) := by
  induction ds generalizing acc with
  | nil => simp [parseUint, decimalValue, eq_comm]
  | cons d ds ih =>
    simp only [parseUint]
    by_cases hd : isDigit d = true
    · have hd2 : 48 ≤ d ∧ d ≤ 57 := by simpa [isDigit] using hd
      simp only [hd, if_true, ih, List.mem_cons, forall_eq_or_imp, hd2, true_and,
        decimalValue, List.length_cons]
      constructor
      · rintro ⟨h1, h2⟩
        refine ⟨h1, ?_⟩
        rw [h2]; ring
      · rintro ⟨h1, h2⟩
        refine ⟨h1, ?_⟩
        rw [h2]; ring
    · have hd2 : ¬ (48 ≤ d ∧ d ≤ 57) := by simpa [isDigit] using hd
      simp [hd, hd2]

/-- `strconv.Atoi` succeeds with `n` exactly on the valid base-10 integers
denoting `n`. -/
theorem Atoi_eq_some_iff (s : GoString) (n : Int) : Atoi s = some n ↔ denotesInt s n := by
  constructor
  · intro h
    cases s with
    | nil => simp [Atoi] at h
    | cons c rest =>
      by_cases h43 : c = 43
      · subst h43
        by_cases hnil : rest = []
        · simp [Atoi, hnil] at h
        · cases hp : parseUint 0 rest with
          | none => simp [Atoi, hp, hnil] at h
          | some un =>
            obtain ⟨hall, hun⟩ := (parseUint_eq_some rest 0 un).mp hp
            simp [Atoi, hp, hnil] at h
            refine ⟨[43], rest, rfl, Or.inr (Or.inl rfl), hnil, hall, ?_, ?_⟩
            · simp [← h.2, hun]
            · unfold isInt64 minInt64 maxInt64
              omega
      · by_cases h45 : c = 45
        · subst h45
          by_cases hnil : rest = []
          · simp [Atoi, hnil] at h
          · cases hp : parseUint 0 rest with
            | none => simp [Atoi, hp, hnil] at h
            | some un =>
              obtain ⟨hall, hun⟩ := (parseUint_eq_some rest 0 un).mp hp
              simp [Atoi, hp, hnil] at h
              refine ⟨[45], rest, rfl, Or.inr (Or.inr rfl), hnil, hall, ?_, ?_⟩
              · simp [← h.2, hun]
              · unfold isInt64 minInt64 maxInt64
                omega
        · cases hp : parseUint 0 (c :: rest) with
          | none => simp [Atoi, hp, h43, h45] at h
          | some un =>
            obtain ⟨hall, hun⟩ := (parseUint_eq_some (c :: rest) 0 un).mp hp
            simp [Atoi, hp, h43, h45] at h
            refine ⟨[], c :: rest, rfl, Or.inl rfl, by simp, hall, ?_, ?_⟩
            · simp [← h.2, hun]
            · unfold isInt64 minInt64 maxInt64
              omega
  · rintro ⟨sign, digits, rfl, hsign, hne, hall, hn, hrange⟩
    unfold isInt64 minInt64 maxInt64 at hrange
    have hp : parseUint 0 digits = some (decimalValue digits) :=
      (parseUint_eq_some digits 0 _).mpr ⟨hall, by simp⟩
    rcases hsign with hs | hs | hs
    · subst hs
      obtain ⟨d, rest, hd⟩ : ∃ d rest, digits = d :: rest := by
        cases digits with
        | nil => exact absurd rfl hne
        | cons d rest => exact ⟨d, rest, rfl⟩
      have hd2 := hall d (by rw [hd]; exact List.mem_cons_self _ _)
      have h43 : ¬ (d = 43) := by omega
      have h45 : ¬ (d = 45) := by omega
      simp only [if_neg (show ¬ (([] : GoString) = [45]) by decide)] at hn
      subst hd
      simp [Atoi, hp, h43, h45, hn]
      omega
    · subst hs
      simp only [if_neg (show ¬ (([43] : GoString) = [45]) by decide)] at hn
      simp [Atoi, hp, hne, hn]
      omega
    · subst hs
      simp only [if_true] at hn
      simp [Atoi, hp, hne, hn]
      omega

/-- C18: on one argument `x`, `int` returns `x` itself when it is an Integer; on
a String it returns the Integer `n` exactly when the text is a valid base-10
integer denoting `n`, and an input Error otherwise; on every other variant it
returns an input Error built from the type tag of `x`. -/
theorem builtinInt_spec (host : Host) (w : World) (x : Object) :
    (∀ v, x = Object.Integer v →
        callBuiltin (builtins host) (ascii "int") w [x] = some (Except.ok (x, w))) ∧
      (∀ s n, x = Object.String s →
        (callBuiltin (builtins host) (ascii "int") w [x] =
            some (Except.ok (Object.Integer n, w)) ↔ denotesInt s n)) ∧
      (∀ s, x = Object.String s → (∀ n, ¬ denotesInt s n) →
        callBuiltin (builtins host) (ascii "int") w [x] =
          some (Except.ok (newError ErrorKind.INPUTERROR
            [ErrArg.str (ascii "STRING: " ++ s), ErrArg.str (ascii "int")], w))) ∧
      ((∀ v, x ≠ Object.Integer v) → (∀ s, x ≠ Object.String s) →
        callBuiltin (builtins host) (ascii "int") w [x] =
          some (Except.ok (newError ErrorKind.INPUTERROR
            [ErrArg.str x.Kind, ErrArg.str (ascii "int")], w))) := by
  have hcall : ∀ y, callBuiltin (builtins host) (ascii "int") w [y] =
      some (builtinInt w [y]) := fun _ => rfl
  refine ⟨?_, ?_, ?_, ?_⟩
  · rintro v rfl
    rfl
  · rintro s n rfl
    rw [hcall, ← Atoi_eq_some_iff]
    cases ha : Atoi s with
    | none =>
      simp [builtinInt, index, ha, bind, Except.bind, pure, Except.pure, newError]
    | some m =>
      simp [builtinInt, index, ha, bind, Except.bind, pure, Except.pure]
  · rintro s rfl hno
    rw [hcall]
    cases ha : Atoi s with
    | none => simp [builtinInt, index, ha, bind, Except.bind, pure, Except.pure]
    | some m => exact absurd ((Atoi_eq_some_iff s m).mp ha) (hno m)
  · intro hi hs
    cases x with
    | Integer v => exact absurd rfl (hi v)
    | String s => exact absurd rfl (hs s)
    | _ => rfl

/-- C18 (witness): `int("-12")` is the Integer -12, and `int(true)` is an input
Error naming BOOLEAN. -/
theorem builtinInt_spec_witness :
    callBuiltin (builtins silentHost) (ascii "int") world123 [Object.String (ascii "-12")] =
        some (Except.ok (Object.Integer (-12), world123)) ∧
      callBuiltin (builtins silentHost) (ascii "int") world123 [Object.Boolean true] =
        some (Except.ok (newError ErrorKind.INPUTERROR
          [ErrArg.str (ascii "BOOLEAN"), ErrArg.str (ascii "int")], world123)) :=
  ⟨((builtinInt_spec silentHost world123 (Object.String (ascii "-12"))).2.1
      (ascii "-12") (-12) rfl).mpr
      ⟨[45], ascii "12", rfl, Or.inr (Or.inr rfl), by decide, by decide, by decide,
        by decide⟩,
    (builtinInt_spec silentHost world123 (Object.Boolean true)).2.2.2
      (fun _ h => Object.noConfusion h) (fun _ h => Object.noConfusion h)⟩

/-! ## The lexer: after an interpolated string, and the end of input -/

/-- C19 (the code at the failing input): on `'{1}'}x` the four tokens of the
interpolated string are followed by RBRACE, BYTES `x` and BYTES for the byte 0,
while a fresh lexer on the rest `}x` yields RBRACE, the word `x` and EOF: after
the closing quote the lexer is not back in Normal mode, because `paused` is
still set and the next `}` puts it into Interpolating mode again. -/
theorem segmentThenRest_tokens (kw : GoString → TokenType) :
    tokens kw 7 (New segmentThenRest) =
        [⟨.ISTRING, ascii "\x27"⟩, ⟨.INT, ascii "1"⟩, ⟨.RBRACE, ascii "\x7d"⟩,
          ⟨.ISTRING, ascii "\x27"⟩,
          ⟨.RBRACE, ascii "\x7d"⟩, ⟨.BYTES, ascii "x"⟩, ⟨.BYTES, [0]⟩] ∧
      tokens kw 3 (New braceX) =
        [⟨.RBRACE, ascii "\x7d"⟩, ⟨kw (ascii "x"), ascii "x"⟩, ⟨.EOF, []⟩] ∧
      (tokens kw 7 (New segmentThenRest)).drop 4 ≠ tokens kw 3 (New braceX) := by
  have h1 : tokens kw 7 (New segmentThenRest) =
      [⟨.ISTRING, ascii "\x27"⟩, ⟨.INT, ascii "1"⟩, ⟨.RBRACE, ascii "\x7d"⟩,
        ⟨.ISTRING, ascii "\x27"⟩,
        ⟨.RBRACE, ascii "\x7d"⟩, ⟨.BYTES, ascii "x"⟩, ⟨.BYTES, [0]⟩] :=
    tokens_step kw ⟨segmentThenRest, 123, 1, 2, true, false⟩ rfl <|
    tokens_step kw ⟨segmentThenRest, 125, 3, 4, false, true⟩ rfl <|
    tokens_step kw ⟨segmentThenRest, 39, 4, 5, true, true⟩ rfl <|
    tokens_step kw ⟨segmentThenRest, 125, 5, 6, false, true⟩ rfl <|
    tokens_step kw ⟨segmentThenRest, 120, 6, 7, true, true⟩ rfl <|
    tokens_step kw ⟨segmentThenRest, 0, 7, 8, true, true⟩ rfl <|
    tokens_step kw ⟨segmentThenRest, 0, 8, 9, true, true⟩ rfl <|
    tokens_zero kw _
  have h2 : tokens kw 3 (New braceX) =
      [⟨.RBRACE, ascii "\x7d"⟩, ⟨kw (ascii "x"), ascii "x"⟩, ⟨.EOF, []⟩] :=
    tokens_step kw ⟨braceX, 120, 1, 2, false, false⟩ rfl <|
    tokens_step kw ⟨braceX, 0, 2, 3, false, false⟩ rfl <|
    tokens_step kw ⟨braceX, 0, 3, 4, false, false⟩ rfl <|
    tokens_zero kw _
  refine ⟨h1, h2, ?_⟩
  rw [h1, h2]
  intro h
  have h3 := congrArg (fun ts => (ts.getD 2 ⟨TokenType.EOF, []⟩).Kind) h
  exact TokenType.noConfusion h3

namespace Lexer

theorem synced_seek (l : Lexer) (p : Nat) : (l.seek p).synced := ⟨rfl, rfl⟩

theorem synced_readChar (l : Lexer) : (readChar l).synced := by
  rw [readChar_eq_seek]
  exact synced_seek l _

theorem readWhile_keeps (cond : Nat → Bool) (n : Nat) (l : Lexer) (h : l.synced) :
    (readWhile cond n l).synced ∧ (readWhile cond n l).input = l.input ∧
      (readWhile cond n l).interpolation = l.interpolation := by
  induction n generalizing l with
  | zero => exact ⟨h, rfl, rfl⟩
  | succ n ih =>
    simp only [readWhile]
    split_ifs
    · exact ih (readChar l) (synced_readChar l)
    · exact ⟨h, rfl, rfl⟩

theorem readStringLoop_keeps (n : Nat) (l : Lexer) (h : l.synced) :
    (readStringLoop n l).2.synced ∧ (readStringLoop n l).2.input = l.input := by
  induction n generalizing l with
  | zero => exact ⟨h, rfl⟩
  | succ n ih =>
    simp only [readStringLoop]
    split_ifs
    · exact ⟨synced_readChar _, rfl⟩
    · exact ⟨synced_readChar _, rfl⟩
    · exact ih (readChar l) (synced_readChar l)

theorem readString_keeps (l : Lexer) (h : l.synced) :
    (readString l).2.synced ∧ (readString l).2.input = l.input := by
  have hk := readStringLoop_keeps l.loopBound l h
  unfold readString
  simp only
  split
  · rename_i l1 heq
    rw [heq] at hk
    exact hk
  · rename_i l1 heq
    rw [heq] at hk
    exact hk

theorem readIdentifier_keeps (l : Lexer) (h : l.synced) :
    (readIdentifier l).2.synced ∧ (readIdentifier l).2.input = l.input :=
  ⟨(readWhile_keeps isLetter l.loopBound l h).1, (readWhile_keeps isLetter l.loopBound l h).2.1⟩

theorem readNumber_keeps (l : Lexer) (h : l.synced) :
    (readNumber l).2.synced ∧ (readNumber l).2.input = l.input :=
  ⟨(readWhile_keeps isDigit l.loopBound l h).1, (readWhile_keeps isDigit l.loopBound l h).2.1⟩

/-- `normalToken` leaves a lexer whose current byte is the one at its
position, over the same input. -/
theorem normalToken_keeps (kw : GoString → TokenType) (l : Lexer) (h : l.synced) :
    (normalToken kw l).2.synced ∧ (normalToken kw l).2.input = l.input := by
  obtain ⟨hs, hin, _⟩ := readWhile_keeps isWhitespace l.loopBound l h
  have hin2 : (skipWhitespace l).input = l.input := hin
  have hs2 : (skipWhitespace l).synced := hs
  unfold normalToken
  simp only
  generalize skipWhitespace l = l1 at hs2 hin2 ⊢
  split
  all_goals try (exact ⟨synced_readChar _, hin2⟩)
  all_goals try (split_ifs <;> try (exact ⟨synced_readChar _, hin2⟩))
  · exact ⟨(readIdentifier_keeps l1 hs2).1, (readIdentifier_keeps l1 hs2).2.trans hin2⟩
  · exact ⟨(readNumber_keeps l1 hs2).1, (readNumber_keeps l1 hs2).2.trans hin2⟩
  · obtain ⟨hk1, hk2⟩ := readString_keeps l1 hs2
    generalize readString l1 = r at hk1 hk2 ⊢
    obtain ⟨o, l2⟩ := r
    cases o with
    | none => exact ⟨synced_readChar _, hk2.trans hin2⟩
    | some s => exact ⟨hk1, hk2.trans hin2⟩

/-- `NextToken` leaves a lexer whose current byte is the one at its position,
over the same input. -/
theorem NextToken_keeps (kw : GoString → TokenType) (l : Lexer) (h : l.synced) :
    (NextToken kw l).2.synced ∧ (NextToken kw l).2.input = l.input := by
  unfold NextToken
  split_ifs
  · exact ⟨synced_readChar _, rfl⟩
  · exact ⟨h, rfl⟩
  · exact ⟨synced_readChar _, rfl⟩
  · unfold nextTokenOutside
    split_ifs
    · exact ⟨synced_readChar _, rfl⟩
    · exact ⟨synced_readChar _, rfl⟩
    · exact normalToken_keeps kw _ (synced_readChar _)
  · exact ⟨synced_readChar _, rfl⟩
  · exact normalToken_keeps kw l h

theorem New_synced (input : GoString) : (New input).synced ∧ (New input).input = input :=
  ⟨synced_readChar _, rfl⟩

theorem after_keeps (kw : GoString → TokenType) (input : GoString) (n : Nat) :
    (after kw n (New input)).synced ∧ (after kw n (New input)).input = input := by
  induction n with
  | zero => exact New_synced input
  | succ n ih =>
    rw [after_succ]
    obtain ⟨h1, h2⟩ := NextToken_keeps kw _ ih.1
    exact ⟨h1, h2.trans ih.2⟩

/-- Over an input without the byte 0, a current byte 0 means the position is
past the last byte. -/
theorem length_le_of_ch_zero (l : Lexer) (h : l.synced) (hnul : ∀ b ∈ l.input, b ≠ 0)
    (hz : l.ch = 0) : l.input.length ≤ l.position := by
  by_contra hlt
  have hlt2 : l.position < l.input.length := Nat.lt_of_not_le hlt
  have hmem : l.input[l.position] ∈ l.input := List.getElem_mem _
  have hget : l.input.getD l.position 0 = l.input[l.position] := by
    simp [List.getD, List.getElem?_eq_getElem hlt2]
  exact hnul _ hmem (by rw [← hget, ← h.1, hz])

theorem normalToken_kind_EOF (kw : GoString → TokenType) (l : Lexer)
    (hkw : ∀ s, kw s ≠ TokenType.EOF) (h : (normalToken kw l).1.Kind = TokenType.EOF) :
    (skipWhitespace l).ch = 0 := by
  by_contra hne
  unfold normalToken at h
  simp only at h
  split at h
  all_goals first
    | exact hne (by assumption)
    | (simp only [newToken] at h; exact TokenType.noConfusion h)
    | (split_ifs at h <;> first
        | (simp only [newToken] at h; exact TokenType.noConfusion h)
        | exact hkw _ h
        | (split at h <;> (simp only [newToken] at h; exact TokenType.noConfusion h)))

/-- When `normalToken` answers EOF over an input without the byte 0, the token
is EOF with the empty literal and the lexer is left at the end of input. -/
theorem normalToken_EOF (kw : GoString → TokenType) (l : Lexer)
    (hkw : ∀ s, kw s ≠ TokenType.EOF) (hs : l.synced) (hnul : ∀ b ∈ l.input, b ≠ 0)
    (hi : l.interpolation = false) (h : (normalToken kw l).1.Kind = TokenType.EOF) :
    (normalToken kw l).1 = ⟨TokenType.EOF, []⟩ ∧ (normalToken kw l).2.atEnd ∧
      l.input.length < (normalToken kw l).2.position := by
  have hz := normalToken_kind_EOF kw l hkw h
  obtain ⟨hs1, hin1, hi1⟩ := readWhile_keeps isWhitespace l.loopBound l hs
  have hs2 : (skipWhitespace l).synced := hs1
  have hin2 : (skipWhitespace l).input = l.input := hin1
  have hi2 : (skipWhitespace l).interpolation = l.interpolation := hi1
  have hle := length_le_of_ch_zero (skipWhitespace l) hs2 (by rw [hin2]; exact hnul) hz
  rw [hin2] at hle
  have hrp := hs2.2
  have heq : normalToken kw l = (⟨TokenType.EOF, []⟩, readChar (skipWhitespace l)) := by
    simp only [normalToken, hz]
  rw [heq]
  refine ⟨rfl, ⟨?_, ?_, ?_⟩, ?_⟩
  · show (skipWhitespace l).interpolation = false
    rw [hi2, hi]
  · exact readChar_ch_of_le _ (by rw [hin2]; omega)
  · show (skipWhitespace l).input.length ≤ (skipWhitespace l).readPosition + 1
    rw [hin2]; omega
  · show l.input.length < (skipWhitespace l).readPosition
    omega

/-- When `NextToken` answers EOF over an input without the byte 0, the token is
EOF with the empty literal and the lexer is left at the end of input. -/
theorem NextToken_EOF (kw : GoString → TokenType) (l : Lexer)
    (hkw : ∀ s, kw s ≠ TokenType.EOF) (hs : l.synced) (hnul : ∀ b ∈ l.input, b ≠ 0)
    (h : (NextToken kw l).1.Kind = TokenType.EOF) :
    (NextToken kw l).1 = ⟨TokenType.EOF, []⟩ ∧ (NextToken kw l).2.atEnd ∧
      l.input.length < (NextToken kw l).2.position := by
  unfold NextToken at h ⊢
  split_ifs at h ⊢ with h1 h2 h3 h4 h5
  · exact TokenType.noConfusion h
  · exact TokenType.noConfusion h
  · exact TokenType.noConfusion h
  · unfold nextTokenOutside at h ⊢
    split_ifs at h ⊢
    · exact TokenType.noConfusion h
    · exact TokenType.noConfusion h
    · exact normalToken_EOF kw _ hkw (synced_readChar _) hnul rfl h
  · exact TokenType.noConfusion h
  · exact normalToken_EOF kw l hkw hs hnul (by simpa using h3) h

/-- At the end of input `NextToken` answers EOF and stays at the end of input. -/
theorem NextToken_atEnd (kw : GoString → TokenType) (l : Lexer) (h : l.atEnd) :
    NextToken kw l = (⟨TokenType.EOF, []⟩, readChar l) ∧ (readChar l).atEnd := by
  obtain ⟨hi, hz, hr⟩ := h
  have hb : (l.paused && l.ch == 125) = false := by simp [hz]
  refine ⟨?_, hi, readChar_ch_of_le l hr, Nat.le_succ_of_le hr⟩
  simp only [NextToken, hb, hi, Bool.false_eq_true, if_false]
  exact normalToken_at_zero kw l hz

end Lexer

/-- C20 (as amended): over a source text without the byte 0 (and a keyword
table that never answers EOF for a word), once `NextToken` has returned an EOF
token, every later call returns the EOF token with the empty literal; and when
the first of them is returned the position is past the last byte of the input. -/
theorem EOF_absorbing (kw : GoString → TokenType) (input : GoString)
    (hkw : ∀ s, kw s ≠ TokenType.EOF) (hnul : ∀ b ∈ input, b ≠ 0) (n : Nat)
    (h : (nthToken kw n (New input)).Kind = TokenType.EOF) :
    (∀ m, n ≤ m → nthToken kw m (New input) = ⟨TokenType.EOF, []⟩) ∧
      input.length < (after kw (n + 1) (New input)).position := by
  obtain ⟨hs, hin⟩ := after_keeps kw input n
  obtain ⟨ht, hend, hpos⟩ := NextToken_EOF kw (after kw n (New input)) hkw hs
    (by rw [hin]; exact hnul) h
  rw [hin] at hpos
  have hstay : ∀ j, (after kw (n + 1 + j) (New input)).atEnd := by
    intro j
    induction j with
    | zero => rw [Nat.add_zero, after_succ]; exact hend
    | succ j ih =>
      rw [← Nat.add_assoc, after_succ, (NextToken_atEnd kw _ ih).1]
      exact (NextToken_atEnd kw _ ih).2
  refine ⟨?_, by rw [after_succ]; exact hpos⟩
  intro m hm
  rcases Nat.eq_or_lt_of_le hm with heq | hlt
  · subst heq
    exact ht
  · obtain ⟨j, rfl⟩ : ∃ j, m = n + 1 + j := ⟨m - (n + 1), by omega⟩
    exact congrArg Prod.fst (NextToken_atEnd kw _ (hstay j)).1

/-- C20 (witness): the second token of `x` is EOF, and so is every later one. -/
theorem EOF_absorbing_witness :
    (∀ m, 1 ≤ m → nthToken identOnly m (New justX) = ⟨TokenType.EOF, []⟩) ∧
      justX.length < (after identOnly 2 (New justX)).position :=
  EOF_absorbing identOnly justX (fun _ h => TokenType.noConfusion h) (by decide) 1 rfl

/-- C20 (counterexample): over the byte 0 followed by `a` the first token is
EOF and the second is the word `a`, with the input not yet read when EOF is
returned. -/
theorem EOF_not_absorbing :
    nthToken identOnly 0 (New nulThenA) = ⟨TokenType.EOF, []⟩ ∧
      nthToken identOnly 1 (New nulThenA) = ⟨TokenType.IDENT, ascii "a"⟩ ∧
      (New nulThenA).position < nulThenA.length := by
  decide

end Monkey
